import Mathlib

/-!
# Faucet module (okwme/modules, incubator/faucet)

A shallow embedding of

* `internal/keeper/keeper.go` : the keeper (`MintAndSend`, the mining record store and the
  faucet key registry),
* `internal/types/msgs.go`    : the stateless message validators,
* `client/cli/tx.go`          : the `mint` and `init` commands,

followed by theorems about them.

Modelling conventions.

* Go `int64` values are integers; the only arithmetic the keeper itself performs on them,
  `mining.Tally + k.amount`, wraps around as in Go (`add64`).
* `time.Time` is modelled by its pair (seconds, nanoseconds); the seconds are an `int64`:
  `time.Unix` wraps around and `Time.Add` saturates, as the standard library does.
* The key-value store of the module is a finite map from byte strings to byte strings; its
  `Set` panics on a nil value.
* What the keeper reaches through `sdk.Context` besides its own store (supply, accounts, staking)
  is an abstract world state `W` that the collaborators read and transform; the context also keeps
  a ghost log of the Supply and Account calls performed.
* The wire codec (`k.cdc`) and the package-level library functions the code calls
  (`sdk.ValidateDenom` behind `sdk.NewCoin`, `emoji.FindAll`) are parameters.
* A Go panic is an explicit outcome (`Ret.panicked`, or `none` for a function that returns a
  value).
-/

namespace Faucet

/-! ## Basic data -/

/-- A Go byte slice; every element stands for one byte. -/
abbrev Bytes := List Nat

/-- The type `sdk.AccAddress`, a byte slice. -/
structure AccAddress where
  bytes : Bytes
deriving DecidableEq, Repr

/-- The method `AccAddress.Bytes`. -/
def AccAddress.Bytes (aa : AccAddress) : Bytes := aa.bytes

/-- The method `AccAddress.Empty`: true for the nil and for the zero-length address. -/
def AccAddress.Empty (aa : AccAddress) : Bool := aa.bytes.isEmpty

/-- The method `AccAddress.Equals`: both empty, or the same bytes. -/
def AccAddress.Equals (aa aa2 : AccAddress) : Bool :=
  if aa.Empty && aa2.Empty then true else decide (aa.Bytes = aa2.Bytes)

/-- Reduction of a mathematical integer to the `int64` it is stored as (two's complement). -/
def wrapInt64 (x : Int) : Int :=
  (x + 9223372036854775808) % 18446744073709551616 - 9223372036854775808

/-- Go's `+` on two `int64` values. -/
def add64 (a b : Int) : Int := wrapInt64 (a + b)

/-- Modelled from the spec: the record type `types.Mining` (its declaration is not in `src/`):
the minter address, the time of the most recent mint (Unix seconds) and the cumulative tally. -/
structure Mining where
  Minter : AccAddress
  LastTime : Int
  Tally : Int
deriving DecidableEq, Repr

/-- Modelled from the spec: the constructor `types.NewMining` (not in `src/`); the record it
returns has the given minter and tally and `LastTime = 0` (the zero-value record of the spec). -/
def NewMining (minter : AccAddress) (tally : Int) : Mining := Mining.mk minter 0 tally

/-- Modelled from the spec: the descriptor type `types.FaucetKey` (its declaration is not in
`src/`), holding the armored key material. -/
structure FaucetKey where
  Armor : String
deriving DecidableEq, Repr

/-- Modelled from the spec: the constructor `types.NewFaucetKey` (not in `src/`). -/
def NewFaucetKey (armor : String) : FaucetKey := FaucetKey.mk armor

/-! ## Errors -/

/-- The two root errors of `sdkerrors` that the module wraps. -/
inductive SdkRoot where
  | ErrInvalidAddress
  | ErrUnauthorized
deriving DecidableEq, Repr

/-- An error value returned by the Supply collaborator. It lives in another module, so it is
none of the error values this module creates itself. -/
structure SupplyError where
  code : Nat
deriving DecidableEq, Repr

/-- Values of Go's `error` that the module produces or passes on: the module's own registered
errors (`types.Err...`), `sdkerrors.Wrap root description`, `sdkerrors.Wrapf root format address`
(the address being the only format argument), and an error of the Supply collaborator, passed
on as it is. -/
inductive Error where
  | ErrCantWithdrawStake
  | ErrWithdrawTooOften
  | ErrNoEmoji
  | ErrFaucetKeyEmpty
  | Wrap (root : SdkRoot) (description : String)
  | Wrapf (root : SdkRoot) (format : String) (arg : AccAddress)
  | Supply (e : SupplyError)
deriving DecidableEq, Repr

/-- Outcome of a Go function of result type `error` that may also panic. -/
inductive Ret where
  | nil
  | err (e : Error)
  | panicked
deriving DecidableEq, Repr

/-! ## Library functions taken as parameters -/

/-- One element of the slice `emoji.FindAll` returns: the library gives one element for each
distinct emoji it finds in the input, with the number of times that emoji occurs. -/
structure SearchResult where
  Match : String
  Occurrences : Nat
deriving DecidableEq, Repr

/-- Package-level functions of external Go libraries that the code calls: `sdk.ValidateDenom`
(as a predicate: true when it returns no error), which `sdk.NewCoin` applies, and
`emoji.FindAll`. -/
structure Libs where
  ValidateDenom : String → Bool
  FindAll : String → List SearchResult

/-- The wire codec `*codec.Codec`, restricted to the two types the keeper stores.
`MustUnmarshalBinaryBare` panics when decoding fails: that is the result `none` of the two
decoders. `MustMarshalBinaryBare` returns a Go slice, which may be nil: the encoder of a faucet
key returns `none` for nil (what amino gives for the descriptor with an empty armor, having
nothing to write). The encoder of a mining record is applied by `setMining` to records with a
non-zero tally only, whose encoding holds at least the tally and is not nil. -/
structure Codec where
  MustMarshalMining : Mining → Bytes
  MustUnmarshalMining : Bytes → Option Mining
  MustMarshalFaucetKey : FaucetKey → Option Bytes
  MustUnmarshalFaucetKey : Bytes → Option FaucetKey

/-- Decoding an encoded mining record gives the record back. -/
def Codec.MiningRoundTrip (cdc : Codec) : Prop :=
  ∀ m : Mining, cdc.MustUnmarshalMining (cdc.MustMarshalMining m) = some m

/-- A faucet key with a non-empty armor has an encoding that is not nil, and decoding it gives
the key back. -/
def Codec.FaucetKeyRoundTrip (cdc : Codec) : Prop :=
  ∀ f : FaucetKey, f.Armor ≠ "" →
    ∃ bz, cdc.MustMarshalFaucetKey f = some bz ∧ cdc.MustUnmarshalFaucetKey bz = some f

/-- Decoding the empty byte string as a faucet key gives the zero-value descriptor. -/
def Codec.NilIsZeroFaucetKey (cdc : Codec) : Prop :=
  cdc.MustUnmarshalFaucetKey [] = some (FaucetKey.mk "")

/-! ## Coins -/

/-- The type `sdk.Coin`. -/
structure Coin where
  Denom : String
  Amount : Int
deriving DecidableEq, Repr

/-- The type `sdk.Coins`. -/
abbrev Coins := List Coin

namespace sdk

/-- The function `sdk.NewInt`: the big integer of an `int64`. -/
def NewInt (n : Int) : Int := n

/-- The function `sdk.NewCoin`: it panics (`none`) when the denomination is invalid or the
amount is negative. -/
def NewCoin (lib : Libs) (denom : String) (amount : Int) : Option Coin :=
  if lib.ValidateDenom denom && decide (0 ≤ amount) then some (Coin.mk denom amount) else none

/-- The function `sdk.NewCoins` on coins that `NewCoin` built, one denomination each: zero
coins are removed (sorting and the duplicate check have nothing to do for one coin). -/
def NewCoins (coins : List Coin) : Coins := coins.filter (fun c => decide (c.Amount ≠ 0))

end sdk

/-! ## Time (Go's `time` package) -/

/-- A `time.Time`: seconds since January 1, year 1 and nanoseconds within the second. -/
structure Time where
  sec : Int
  nsec : Int
deriving DecidableEq, Repr

namespace time

/-- Seconds from year 1 to the Unix epoch (`unixToInternal`). -/
def unixToInternal : Int := 62135596800

/-- The function `time.Unix(sec, nsec)`. Its additions are `int64` additions: the seconds
since year 1 wrap around when `sec + unixToInternal` leaves the range of `int64`. -/
def Unix (sec nsec : Int) : Time :=
  if nsec < 0 ∨ 1000000000 ≤ nsec then
    let n := nsec.tdiv 1000000000
    let sec1 := add64 sec n
    let nsec1 := nsec - n * 1000000000
    if nsec1 < 0 then Time.mk (add64 (add64 sec1 (-1)) unixToInternal) (nsec1 + 1000000000)
    else Time.mk (add64 sec1 unixToInternal) nsec1
  else Time.mk (add64 sec unixToInternal) nsec

end time

/-- The method `Time.addSec` on a time without monotonic clock reading: the `int64` sum, and
the largest or smallest value when the sum overflows. (Releases of Go before this overflow
check let the sum wrap around; nothing below uses `addSec` where the two differ.) -/
def Time.addSec (sec d : Int) : Int :=
  if decide (add64 sec d > sec) = decide (d > 0) then add64 sec d
  else if d > 0 then 9223372036854775807
  else -9223372036854775807

/-- The method `Time.Add(d)`, `d` a `time.Duration` in nanoseconds; `/` and `%` truncate
toward zero as in Go. -/
def Time.Add (t : Time) (d : Int) : Time :=
  let dsec := d.tdiv 1000000000
  let nsec := t.nsec + d.tmod 1000000000
  if 1000000000 ≤ nsec then Time.mk (Time.addSec t.sec (dsec + 1)) (nsec - 1000000000)
  else if nsec < 0 then Time.mk (Time.addSec t.sec (dsec - 1)) (nsec + 1000000000)
  else Time.mk (Time.addSec t.sec dsec) nsec

/-- The method `Time.UTC`: same instant, location set to UTC. -/
def Time.UTC (t : Time) : Time := t

/-- The method `Time.After`. -/
def Time.After (t u : Time) : Bool :=
  decide (t.sec > u.sec) || (decide (t.sec = u.sec) && decide (t.nsec > u.nsec))

/-! ## The key-value store -/

/-- The module's `sdk.KVStore`: a finite map from keys to values, at most one entry per key. -/
structure KVStore where
  entries : List (Bytes × Bytes)
deriving DecidableEq, Repr

/-- The empty store. -/
def KVStore.empty : KVStore := KVStore.mk []

/-- The method `store.Has`. -/
def KVStore.Has (s : KVStore) (key : Bytes) : Bool := (s.entries.lookup key).isSome

/-- The method `store.Get`: the value, or nil (the empty slice) when the key is absent. -/
def KVStore.Get (s : KVStore) (key : Bytes) : Bytes := (s.entries.lookup key).getD []

/-- The store in which the entry for `key` is replaced by `value`. -/
def KVStore.put (s : KVStore) (key value : Bytes) : KVStore :=
  KVStore.mk ((key, value) :: s.entries.filter (fun e => !(e.1 == key)))

/-- The method `store.Set`. The value is a Go slice, `none` standing for nil: on a nil value
the store panics (result `none`) and is not changed; otherwise the entry for `key` is
replaced. (A nil key panics as well; the keys used below are the bytes of the constant
`FaucetStoreKey` and of an address, and are not told apart from nil when empty.) -/
def KVStore.Set (s : KVStore) (key : Bytes) (value : Option Bytes) : Option KVStore :=
  match value with
  | none => none
  | some v => some (s.put key v)

/-! ## Context and collaborators -/

/-- A call to the Supply or Account collaborator (module name `types.ModuleName` throughout). -/
inductive Call where
  | MintCoins (coins : Coins)
  | GetAccount (addr : AccAddress)
  | SendCoinsFromModuleToAccount (addr : AccAddress) (coins : Coins)
deriving DecidableEq, Repr

/-- The part of `sdk.Context` the keeper works on: its own store (`ctx.KVStore(k.storeKey)`),
the state `world` of the other modules, and the ghost log of collaborator calls. -/
structure Ctx (W : Type) where
  store : KVStore
  world : W
  calls : List Call
deriving DecidableEq

/-- The interface `types.SupplyKeeper`; the module name argument is always
`types.ModuleName` and is left out. -/
structure SupplyKeeper (W : Type) where
  MintCoins : W → Coins → W × Option SupplyError
  SendCoinsFromModuleToAccount : W → AccAddress → Coins → W × Option SupplyError

/-- The interface `types.StakingKeeper`. -/
structure StakingKeeper (W : Type) where
  BondDenom : W → String

/-- The type `auth.AccountKeeper`, as far as it is used: `GetAccount` is true when the returned
account is not nil. -/
structure AccountKeeper (W : Type) where
  GetAccount : W → AccAddress → Bool

/-- The bytes of the Go string constant `FaucetStoreKey = "DefaultFaucetStoreKey"`. -/
def FaucetStoreKey : Bytes :=
  [68, 101, 102, 97, 117, 108, 116, 70, 97, 117, 99, 101, 116, 83, 116, 111, 114, 101, 75, 101, 121]

/-- The struct `Keeper`; `storeKey` selects `Ctx.store`. -/
structure Keeper (W : Type) where
  SupplyKeeper : SupplyKeeper W
  StakingKeeper : StakingKeeper W
  AccountKeeper : AccountKeeper W
  amount : Int
  Limit : Int
  cdc : Codec

variable {W : Type}

/-- The method `Keeper.isPresent`. -/
def Keeper.isPresent (_k : Keeper W) (ctx : Ctx W) (minter : AccAddress) : Bool :=
  ctx.store.Has minter.Bytes

/-- The method `Keeper.getMining`; `none` when the stored bytes do not decode (a panic). -/
def Keeper.getMining (k : Keeper W) (ctx : Ctx W) (minter : AccAddress) : Option Mining :=
  if !(k.isPresent ctx minter) then some (NewMining minter 0)
  else k.cdc.MustUnmarshalMining (ctx.store.Get minter.Bytes)

/-- The method `Keeper.setMining`. The value it hands to `store.Set` is the encoding of a
record with a non-zero tally, which is not nil, so this `Set` does not panic. -/
def Keeper.setMining (k : Keeper W) (ctx : Ctx W) (minter : AccAddress) (mining : Mining) :
    Ctx W :=
  if mining.Minter.Empty then ctx
  else if mining.Tally = 0 then ctx
  else
    match ctx.store.Set minter.Bytes (some (k.cdc.MustMarshalMining mining)) with
    | some store => Ctx.mk store ctx.world ctx.calls
    | none => ctx

/-- The condition of the `if` that refuses a mint (keeper.go, lines 62 and 63), for the record
`mining` that `getMining` returned. -/
def Keeper.tooOften (k : Keeper W) (ctx : Ctx W) (sender : AccAddress) (mining : Mining)
    (mintTime : Int) : Bool :=
  k.isPresent ctx sender &&
    (((time.Unix mining.LastTime 0).Add k.Limit).UTC).After (time.Unix mintTime 0)

/-- The format string of the error for an absent receiver. -/
def receiverAbsentFormat : String := "%s does not exist and is not allowed to receive tokens"

/-- The method `Keeper.MintAndSend`: the returned error and the context it leaves. -/
def Keeper.MintAndSend (lib : Libs) (k : Keeper W) (ctx : Ctx W) (sender receiver : AccAddress)
    (mintTime : Int) (denom : String) : Ret × Ctx W :=
  if denom = k.StakingKeeper.BondDenom ctx.world then
    (Ret.err Error.ErrCantWithdrawStake, ctx)
  else
    match k.getMining ctx sender with
    | none => (Ret.panicked, ctx)
    | some mining =>
      if k.isPresent ctx sender &&
          (((time.Unix mining.LastTime 0).Add k.Limit).UTC).After (time.Unix mintTime 0) then
        (Ret.err Error.ErrWithdrawTooOften, ctx)
      else
        match sdk.NewCoin lib denom (sdk.NewInt k.amount) with
        | none => (Ret.panicked, ctx)
        | some newCoin =>
          let mining1 := Mining.mk mining.Minter mintTime (add64 mining.Tally k.amount)
          let ctx1 := k.setMining ctx sender mining1
          let newCoins := sdk.NewCoins [newCoin]
          let minted := k.SupplyKeeper.MintCoins ctx1.world newCoins
          let ctx2 := Ctx.mk ctx1.store minted.1 (ctx1.calls ++ [Call.MintCoins newCoins])
          match minted.2 with
          | some e => (Ret.err (Error.Supply e), ctx2)
          | none =>
            let ctx3 := Ctx.mk ctx2.store ctx2.world (ctx2.calls ++ [Call.GetAccount receiver])
            if !(k.AccountKeeper.GetAccount ctx2.world receiver) then
              (Ret.err (Error.Wrapf SdkRoot.ErrUnauthorized receiverAbsentFormat receiver), ctx3)
            else
              let sent := k.SupplyKeeper.SendCoinsFromModuleToAccount ctx3.world receiver
                (sdk.NewCoins [newCoin])
              let ctx4 := Ctx.mk ctx3.store sent.1
                (ctx3.calls ++ [Call.SendCoinsFromModuleToAccount receiver (sdk.NewCoins [newCoin])])
              match sent.2 with
              | some e => (Ret.err (Error.Supply e), ctx4)
              | none => (Ret.nil, ctx4)

/-- The method `Keeper.GetFaucetKey`; `none` when the stored bytes do not decode (a panic). -/
def Keeper.GetFaucetKey (k : Keeper W) (ctx : Ctx W) : Option FaucetKey :=
  k.cdc.MustUnmarshalFaucetKey (ctx.store.Get FaucetStoreKey)

/-- The method `Keeper.SetFaucetKey`: `Ret.nil` when it returns, and `Ret.panicked`, with the
context as it was, when `store.Set` panics on a nil encoding. -/
def Keeper.SetFaucetKey (k : Keeper W) (ctx : Ctx W) (armor : String) : Ret × Ctx W :=
  match ctx.store.Set FaucetStoreKey (k.cdc.MustMarshalFaucetKey (NewFaucetKey armor)) with
  | some store => (Ret.nil, Ctx.mk store ctx.world ctx.calls)
  | none => (Ret.panicked, ctx)

/-- The method `Keeper.HasFaucetKey`. -/
def Keeper.HasFaucetKey (_k : Keeper W) (ctx : Ctx W) : Bool :=
  ctx.store.Has FaucetStoreKey

/-! ## Messages (`msgs.go`) -/

/-- The struct `MsgMint`. -/
structure MsgMint where
  Sender : AccAddress
  Minter : AccAddress
  Denom : String
deriving DecidableEq, Repr

/-- The constructor `NewMsgMint`. -/
def NewMsgMint (sender minter : AccAddress) (denom : String) : MsgMint :=
  MsgMint.mk sender minter denom

/-- The method `MsgMint.ValidateBasic`; `none` is the nil error. The description of the first
two errors is `AccAddress.String()` of an empty address, which is the empty string. -/
def MsgMint.ValidateBasic (lib : Libs) (msg : MsgMint) : Option Error :=
  if msg.Minter.Empty then some (Error.Wrap SdkRoot.ErrInvalidAddress "")
  else if msg.Sender.Empty then some (Error.Wrap SdkRoot.ErrInvalidAddress "")
  else if msg.Sender.Equals msg.Minter then
    some (Error.Wrap SdkRoot.ErrInvalidAddress "Can't mint to yourself")
  else if (lib.FindAll msg.Denom).length ≠ 1 then some Error.ErrNoEmoji
  else none

/-- The struct `MsgFaucetKey`. -/
structure MsgFaucetKey where
  Sender : AccAddress
  Armor : String
deriving DecidableEq, Repr

/-- The constructor `NewMsgFaucetKey`. -/
def NewMsgFaucetKey (sender : AccAddress) (armor : String) : MsgFaucetKey :=
  MsgFaucetKey.mk sender armor

/-- The method `MsgFaucetKey.ValidateBasic`; `none` is the nil error, and `len(msg.Armor)`
is the number of bytes of the string. -/
def MsgFaucetKey.ValidateBasic (msg : MsgFaucetKey) : Option Error :=
  if msg.Sender.Empty then some (Error.Wrap SdkRoot.ErrInvalidAddress "")
  else if msg.Armor.utf8ByteSize = 0 then some Error.ErrFaucetKeyEmpty
  else none

/-! ## Sequences of calls -/

/-- The arguments of one `MintAndSend` call. -/
structure MintCall where
  sender : AccAddress
  receiver : AccAddress
  mintTime : Int
  denom : String
deriving DecidableEq, Repr

/-- One `MintAndSend` call with the arguments `c`. -/
def Keeper.call (lib : Libs) (k : Keeper W) (ctx : Ctx W) (c : MintCall) : Ret × Ctx W :=
  k.MintAndSend lib ctx c.sender c.receiver c.mintTime c.denom

/-- The context after the calls `cs`, performed one after the other. -/
def Keeper.runCalls (lib : Libs) (k : Keeper W) : Ctx W → List MintCall → Ctx W
  | ctx, [] => ctx
  | ctx, c :: cs => Keeper.runCalls lib k (k.call lib ctx c).2 cs

/-- The results of the calls `cs`, performed one after the other. -/
def Keeper.callResults (lib : Libs) (k : Keeper W) : Ctx W → List MintCall → List Ret
  | _, [] => []
  | ctx, c :: cs => (k.call lib ctx c).1 :: Keeper.callResults lib k (k.call lib ctx c).2 cs

/-- An integer in the range of `int64`. -/
def IsInt64 (x : Int) : Prop := -9223372036854775808 ≤ x ∧ x < 9223372036854775808

instance (x : Int) : Decidable (IsInt64 x) :=
  inferInstanceAs (Decidable (-9223372036854775808 ≤ x ∧ x < 9223372036854775808))

/-- The Unix time `t` (seconds) is one on which the time arithmetic of `MintAndSend` does not
overflow `int64`: neither `time.Unix(t, 0)` nor the addition of the cooldown `k.Limit`
(nanoseconds) to it. -/
def Keeper.TimeOk (k : Keeper W) (t : Int) : Prop :=
  IsInt64 (t + time.unixToInternal) ∧
    IsInt64 (t + time.unixToInternal + k.Limit / 1000000000)

instance (k : Keeper W) (t : Int) : Decidable (k.TimeOk t) :=
  inferInstanceAs (Decidable (IsInt64 (t + time.unixToInternal) ∧
    IsInt64 (t + time.unixToInternal + k.Limit / 1000000000)))

/-- The number of matches in the sense of the specification: every occurrence of every emoji
that `emoji.FindAll` found. -/
def matchCount (results : List SearchResult) : Nat := (results.map (fun r => r.Occurrences)).sum

/-- The context of a fresh chain: empty store, no collaborator call yet. -/
def Ctx.init (w : W) : Ctx W := Ctx.mk KVStore.empty w []

/-- One operation on the module's store: a `MintAndSend` call or a `SetFaucetKey` (publish). -/
inductive Op where
  | mint (c : MintCall)
  | publish (armor : String)
deriving DecidableEq, Repr

/-- The context after one operation. -/
def Keeper.step (lib : Libs) (k : Keeper W) (ctx : Ctx W) : Op → Ctx W
  | Op.mint c => (k.call lib ctx c).2
  | Op.publish armor => (k.SetFaucetKey ctx armor).2

/-- The context after the operations `ops`, performed one after the other. -/
def Keeper.run (lib : Libs) (k : Keeper W) : Ctx W → List Op → Ctx W
  | ctx, [] => ctx
  | ctx, op :: ops => Keeper.run lib k (k.step lib ctx op) ops

/-- The invariant of the mining records: every record persisted under an address other than
the reserved key carries that address, which is not empty, and a tally in `(0, bound]`. -/
def Keeper.RecordsOk (k : Keeper W) (bound : Int) (ctx : Ctx W) : Prop :=
  ∀ a : AccAddress, a.Bytes ≠ FaucetStoreKey → k.isPresent ctx a = true →
    ∃ m, k.getMining ctx a = some m ∧ m.Minter = a ∧ a.Empty = false ∧
      0 < m.Tally ∧ m.Tally ≤ bound

/-! ## Commands (`tx.go`) -/

/-- What the `RunE` function of a command returns: nil, an error of `ValidateBasic`, an
error made by `errors.New`, the error of `keys.NewKeyring`, or the result of the final call
`utils.GenerateOrBroadcastMsgs(cliCtx, txBldr, msgs)`, which is kept as that call; a panic is
an outcome of its own. -/
inductive CmdRet where
  | nil
  | err (e : Error)
  | errorsNew (text : String)
  | errKeyring (code : Nat)
  | GenerateOrBroadcastMsgs (msgs : List MsgMint)
  | panicked
deriving DecidableEq, Repr

/-- The `RunE` function of `GetCmdMint`; `fromAddress` is `cliCtx.GetFromAddress()`. Indexing
`args[0]` panics when there is no argument. -/
def GetCmdMint.RunE (lib : Libs) (fromAddress : AccAddress) (args : List String) : CmdRet :=
  match args with
  | [] => CmdRet.panicked
  | denom :: _ =>
    let msg := NewMsgMint fromAddress fromAddress denom
    match msg.ValidateBasic lib with
    | some err => CmdRet.err err
    | none => CmdRet.GenerateOrBroadcastMsgs [msg]

/-- The key store `keys.Keybase` as far as the `init` command uses it, on a state `K`:
`Get` is true when the returned error is nil (the key exists), `Import` returns the new state
and its error (`none` is nil). -/
structure Keybase (K : Type) where
  Get : K → String → Bool
  Import : K → String → String → K × Option Nat

/-- What the `init` command works with: the result of `keys.NewKeyring` (an error, or the
key store), the query `cliCtx.QueryWithData` (an error, or the response bytes) and the JSON
decoder `cdc.MustUnmarshalJSON` for a faucet key (`none` is a panic). -/
structure InitEnv (K : Type) where
  NewKeyring : Except Nat (Keybase K)
  QueryWithData : String → Except Nat Bytes
  MustUnmarshalJSON : Bytes → Option FaucetKey

/-- The result of the `init` command: what `RunE` returns, the state of the local key store
afterwards and the log of `Import` calls (name and armor). -/
structure InitResult (K : Type) where
  ret : CmdRet
  keys : K
  imports : List (String × String)
deriving DecidableEq

/-- The `RunE` function of `GetCmdInitial`. `ModuleName` is the constant `types.ModuleName`
(its declaration is not in `src/`), `keys` the state of the local key store. -/
def GetCmdInitial.RunE {K : Type} (ModuleName : String) (env : InitEnv K) (keys : K) :
    InitResult K :=
  match env.NewKeyring with
  | Except.error errkb => InitResult.mk (CmdRet.errKeyring errkb) keys []
  | Except.ok kb =>
    if kb.Get keys ModuleName then
      InitResult.mk (CmdRet.errorsNew "faucet existed") keys []
    else
      match env.QueryWithData ("custom/" ++ ModuleName ++ "/key") with
      | Except.error _ => InitResult.mk CmdRet.nil keys []
      | Except.ok res =>
        match env.MustUnmarshalJSON res with
        | none => InitResult.mk CmdRet.panicked keys []
        | some rkey =>
          if rkey.Armor.utf8ByteSize = 0 then
            InitResult.mk (CmdRet.errorsNew "Faucet key has not published") keys []
          else
            InitResult.mk CmdRet.nil (kb.Import keys ModuleName rkey.Armor).1
              [(ModuleName, rkey.Armor)]

/-! ## Concrete instances, used to evaluate the definitions -/

/-- Encoding of an integer as sign and magnitude. -/
def encodeInt (x : Int) : List Nat := [if x < 0 then 1 else 0, x.natAbs]

/-- Decoding of sign and magnitude. -/
def decodeInt (sign magnitude : Nat) : Int :=
  if sign = 0 then (magnitude : Int) else -(magnitude : Int)

/-- A codec that round-trips: a record is a tag, its two integers and the address bytes; a
faucet key is a tag and the code points of the armor, and nil when the armor is empty. The
empty input decodes to the zero-value faucet key. -/
def sampleCodec : Codec where
  MustMarshalMining := fun m => 0 :: (encodeInt m.LastTime ++ encodeInt m.Tally ++ m.Minter.bytes)
  MustUnmarshalMining := fun bz =>
    match bz with
    | 0 :: s1 :: a1 :: s2 :: a2 :: rest =>
      some (Mining.mk (AccAddress.mk rest) (decodeInt s1 a1) (decodeInt s2 a2))
    | _ => none
  MustMarshalFaucetKey := fun f =>
    if f.Armor = "" then none else some (1 :: f.Armor.data.map Char.toNat)
  MustUnmarshalFaucetKey := fun bz =>
    match bz with
    | [] => some (FaucetKey.mk "")
    | 1 :: cs => some (FaucetKey.mk (String.mk (cs.map Char.ofNat)))
    | _ => none

/-- A small emoji classification. -/
def sampleEmojis : List Char := ['🪙', '😀', '🚀']

/-- The emoji of `sampleEmojis` found in the characters `cs`, one result for each distinct
emoji, in the order of first occurrence, with the number of its occurrences. -/
def sampleFindAll (cs : List Char) : List SearchResult :=
  (cs.eraseDups.filter (fun c => sampleEmojis.contains c)).map
    (fun c => SearchResult.mk (String.singleton c) (cs.count c))

/-- Libraries that accept every denomination and find the emoji of `sampleEmojis`. -/
def sampleLibs : Libs where
  ValidateDenom := fun _ => true
  FindAll := fun denom => sampleFindAll denom.data

/-- A Supply collaborator on a world that counts the minted units still held by the module;
`mintFails` and `sendFails` make the respective operation return an error. -/
def sampleSupply (mintFails sendFails : Bool) : SupplyKeeper Int where
  MintCoins := fun w coins =>
    if mintFails then (w, some (SupplyError.mk 1))
    else (w + (coins.map (fun c => c.Amount)).sum, none)
  SendCoinsFromModuleToAccount := fun w _ coins =>
    if sendFails then (w, some (SupplyError.mk 2))
    else (w - (coins.map (fun c => c.Amount)).sum, none)

/-- A keeper with bond denomination "stake" in which every address except the one-byte
address 0 has an account. -/
def sampleKeeper (amount limit : Int) (mintFails sendFails : Bool) : Keeper Int where
  SupplyKeeper := sampleSupply mintFails sendFails
  StakingKeeper := StakingKeeper.mk (fun _ => "stake")
  AccountKeeper := AccountKeeper.mk (fun _ addr => !(addr.bytes == [0]))
  amount := amount
  Limit := limit
  cdc := sampleCodec

/-- A sender address. -/
def alice : AccAddress := AccAddress.mk [1, 2, 3]

/-- A receiver address that has an account in `sampleKeeper`. -/
def bob : AccAddress := AccAddress.mk [4, 5, 6]

/-- A receiver address without an account in `sampleKeeper`. -/
def nobody : AccAddress := AccAddress.mk [0]

/-- The sender address whose bytes are those of the reserved key. -/
def keyName : AccAddress := AccAddress.mk FaucetStoreKey

/-- A local key store: the list of (name, armor) it holds. `Import` refuses the armor "BAD"
and names that exist already. -/
def sampleKeybase : Keybase (List (String × String)) where
  Get := fun keys name => (keys.lookup name).isSome
  Import := fun keys name armor =>
    if armor = "BAD" then (keys, some 3)
    else if (keys.lookup name).isSome then (keys, some 4)
    else ((name, armor) :: keys, none)

/-- An environment of the `init` command with `sampleKeybase`: the query fails when
`queryFails`, and otherwise answers with the published descriptor in the encoding of
`sampleCodec`. -/
def sampleInitEnv (queryFails : Bool) (published : FaucetKey) :
    InitEnv (List (String × String)) where
  NewKeyring := Except.ok sampleKeybase
  QueryWithData := fun _ =>
    if queryFails then Except.error 5
    else Except.ok ((sampleCodec.MustMarshalFaucetKey published).getD [])
  MustUnmarshalJSON := sampleCodec.MustUnmarshalFaucetKey

/-! ## Lemmas on the store, on time and on `int64` -/

theorem KVStore.set_some (s : KVStore) (key value : Bytes) :
    s.Set key (some value) = some (s.put key value) := rfl

theorem KVStore.has_put_same (s : KVStore) (key value : Bytes) :
    (s.put key value).Has key = true := by
  simp [KVStore.Has, KVStore.put, List.lookup]

theorem KVStore.get_put_same (s : KVStore) (key value : Bytes) :
    (s.put key value).Get key = value := by
  simp [KVStore.Get, KVStore.put, List.lookup]

theorem KVStore.lookup_filter_ne (l : List (Bytes × Bytes)) (key other : Bytes)
    (h : other ≠ key) :
    (l.filter (fun e => !(e.1 == key))).lookup other = l.lookup other := by
  induction l with
  | nil => rfl
  | cons e l ih =>
    obtain ⟨a, b⟩ := e
    by_cases hak : a = key
    · subst hak
      have hoa : (other == a) = false := by simpa using h
      simp [List.filter, List.lookup, hoa, ih]
    · have hak2 : (a == key) = false := by simpa using hak
      by_cases hoa : other = a
      · subst hoa
        simp [List.filter, List.lookup, hak2]
      · have hoa2 : (other == a) = false := by simpa using hoa
        simp [List.filter, List.lookup, hak2, hoa2, ih]

theorem KVStore.has_put_other (s : KVStore) (key other value : Bytes) (h : other ≠ key) :
    (s.put key value).Has other = s.Has other := by
  have hne : (other == key) = false := by simpa using h
  simp [KVStore.Has, KVStore.put, List.lookup, hne, KVStore.lookup_filter_ne _ _ _ h]

theorem KVStore.get_put_other (s : KVStore) (key other value : Bytes) (h : other ≠ key) :
    (s.put key value).Get other = s.Get other := by
  have hne : (other == key) = false := by simpa using h
  simp [KVStore.Get, KVStore.put, List.lookup, hne, KVStore.lookup_filter_ne _ _ _ h]

theorem KVStore.put_put_same (s : KVStore) (key v1 v2 : Bytes) :
    (s.put key v1).put key v2 = s.put key v2 := by
  simp [KVStore.put, List.filter, List.filter_filter]

theorem wrapInt64_of_isInt64 (x : Int) (h : IsInt64 x) : wrapInt64 x = x := by
  unfold IsInt64 at h
  unfold wrapInt64
  omega

theorem add64_zero_left (x : Int) (h : IsInt64 x) : add64 0 x = x := by
  simp [add64, wrapInt64_of_isInt64 x h]

theorem add64_of_isInt64 (a b : Int) (h : IsInt64 (a + b)) : add64 a b = a + b :=
  wrapInt64_of_isInt64 _ h

theorem time.unix_zero (sec : Int) :
    time.Unix sec 0 = Time.mk (add64 sec time.unixToInternal) 0 := by
  simp [time.Unix]

/-- Where the sum is within `int64`, `addSec` is the sum. -/
theorem Time.addSec_of_isInt64 (sec d : Int) (h : IsInt64 (sec + d)) :
    Time.addSec sec d = sec + d := by
  unfold Time.addSec
  rw [add64_of_isInt64 _ _ h]
  have hc : decide (sec + d > sec) = decide (d > 0) := by
    by_cases hd : d > 0
    · simp [hd]
    · simp [hd]
  rw [if_pos hc]

/-- The comparison of `MintAndSend`, in nanoseconds, where the time arithmetic stays within
`int64`: `time.Unix(a, 0).Add(d).UTC()` is after `time.Unix(b, 0)` exactly when `a` seconds
plus `d` nanoseconds exceed `b` seconds. -/
theorem time.after_add_unix (a d b : Int)
    (ha : IsInt64 (a + time.unixToInternal))
    (had : IsInt64 (a + time.unixToInternal + d / 1000000000))
    (hb : IsInt64 (b + time.unixToInternal)) :
    (((time.Unix a 0).Add d).UTC).After (time.Unix b 0) = true ↔
      a * 1000000000 + d > b * 1000000000 := by
  have h1 := Int.tdiv_add_tmod d 1000000000
  have h2 : d.tmod 1000000000 < 1000000000 := Int.tmod_lt_of_pos d (by norm_num)
  have h3 : -1000000000 < d.tmod 1000000000 := by
    rcases le_or_lt 0 d with hd | hd
    · have := Int.tmod_nonneg 1000000000 hd
      omega
    · have hn : 0 ≤ -d := by omega
      have h5 := Int.tmod_nonneg 1000000000 hn
      have h6 := Int.tdiv_add_tmod (-d) 1000000000
      have h7 : (-d).tmod 1000000000 < 1000000000 := Int.tmod_lt_of_pos (-d) (by norm_num)
      rw [Int.neg_tdiv] at h6
      omega
  rw [time.unix_zero, time.unix_zero, add64_of_isInt64 _ _ ha, add64_of_isInt64 _ _ hb]
  generalize hq : d.tdiv 1000000000 = q at h1
  generalize hr : d.tmod 1000000000 = r at h1 h2 h3
  unfold IsInt64 at ha had hb
  simp only [time.unixToInternal] at ha had hb ⊢
  simp only [Time.Add, Time.UTC, Time.After, zero_add, hq, hr]
  split_ifs with c1 c2
  · omega
  · have hs : Time.addSec (a + 62135596800) (q - 1) = a + 62135596800 + (q - 1) :=
      Time.addSec_of_isInt64 _ _ (by unfold IsInt64; omega)
    rw [hs]
    simp
    omega
  · have hs : Time.addSec (a + 62135596800) q = a + 62135596800 + q :=
      Time.addSec_of_isInt64 _ _ (by unfold IsInt64; omega)
    rw [hs]
    simp
    omega

/-! ## The branches of `MintAndSend` -/

/-- The rate-limit test of `MintAndSend`, in nanoseconds, for times on which the time
arithmetic stays within `int64`. -/
theorem Keeper.tooOften_iff (k : Keeper W) (ctx : Ctx W) (sender : AccAddress) (mining : Mining)
    (mintTime : Int) (hlast : k.TimeOk mining.LastTime)
    (hmint : IsInt64 (mintTime + time.unixToInternal)) :
    k.tooOften ctx sender mining mintTime = true ↔
      (k.isPresent ctx sender = true ∧
        mining.LastTime * 1000000000 + k.Limit > mintTime * 1000000000) := by
  unfold Keeper.tooOften
  rw [Bool.and_eq_true, time.after_add_unix _ _ _ hlast.1 hlast.2 hmint]

/-- A sender without record is never refused. -/
theorem Keeper.tooOften_absent (k : Keeper W) (ctx : Ctx W) (sender : AccAddress)
    (mining : Mining) (mintTime : Int) (h : k.isPresent ctx sender = false) :
    k.tooOften ctx sender mining mintTime = false := by
  simp [Keeper.tooOften, h]

theorem Keeper.setMining_eq (k : Keeper W) (ctx : Ctx W) (minter : AccAddress)
    (mining : Mining) :
    k.setMining ctx minter mining =
      if mining.Minter.Empty then ctx
      else if mining.Tally = 0 then ctx
      else Ctx.mk (ctx.store.put minter.Bytes (k.cdc.MustMarshalMining mining))
        ctx.world ctx.calls := rfl

theorem Keeper.MintAndSend_bond (lib : Libs) (k : Keeper W) (ctx : Ctx W)
    (sender receiver : AccAddress) (mintTime : Int) (denom : String)
    (hd : denom = k.StakingKeeper.BondDenom ctx.world) :
    k.MintAndSend lib ctx sender receiver mintTime denom =
      (Ret.err Error.ErrCantWithdrawStake, ctx) := by
  unfold Keeper.MintAndSend
  rw [if_pos hd]

theorem Keeper.MintAndSend_undecodable (lib : Libs) (k : Keeper W) (ctx : Ctx W)
    (sender receiver : AccAddress) (mintTime : Int) (denom : String)
    (hd : denom ≠ k.StakingKeeper.BondDenom ctx.world)
    (hm : k.getMining ctx sender = none) :
    k.MintAndSend lib ctx sender receiver mintTime denom = (Ret.panicked, ctx) := by
  unfold Keeper.MintAndSend
  rw [if_neg hd, hm]

theorem Keeper.MintAndSend_tooOften (lib : Libs) (k : Keeper W) (ctx : Ctx W)
    (sender receiver : AccAddress) (mintTime : Int) (denom : String) (mining : Mining)
    (hd : denom ≠ k.StakingKeeper.BondDenom ctx.world)
    (hm : k.getMining ctx sender = some mining)
    (hrl : k.tooOften ctx sender mining mintTime = true) :
    k.MintAndSend lib ctx sender receiver mintTime denom =
      (Ret.err Error.ErrWithdrawTooOften, ctx) := by
  unfold Keeper.tooOften at hrl
  unfold Keeper.MintAndSend
  rw [if_neg hd, hm]
  simp only [hrl, if_true]

/-- Past the two checks, `MintAndSend` is the rest of its body. -/
theorem Keeper.MintAndSend_admitted (lib : Libs) (k : Keeper W) (ctx : Ctx W)
    (sender receiver : AccAddress) (mintTime : Int) (denom : String) (mining : Mining)
    (hd : denom ≠ k.StakingKeeper.BondDenom ctx.world)
    (hm : k.getMining ctx sender = some mining)
    (hrl : k.tooOften ctx sender mining mintTime = false) :
    k.MintAndSend lib ctx sender receiver mintTime denom =
      match sdk.NewCoin lib denom (sdk.NewInt k.amount) with
      | none => (Ret.panicked, ctx)
      | some newCoin =>
        let mining1 := Mining.mk mining.Minter mintTime (add64 mining.Tally k.amount)
        let ctx1 := k.setMining ctx sender mining1
        let newCoins := sdk.NewCoins [newCoin]
        let minted := k.SupplyKeeper.MintCoins ctx1.world newCoins
        let ctx2 := Ctx.mk ctx1.store minted.1 (ctx1.calls ++ [Call.MintCoins newCoins])
        match minted.2 with
        | some e => (Ret.err (Error.Supply e), ctx2)
        | none =>
          let ctx3 := Ctx.mk ctx2.store ctx2.world (ctx2.calls ++ [Call.GetAccount receiver])
          if !(k.AccountKeeper.GetAccount ctx2.world receiver) then
            (Ret.err (Error.Wrapf SdkRoot.ErrUnauthorized receiverAbsentFormat receiver), ctx3)
          else
            let sent := k.SupplyKeeper.SendCoinsFromModuleToAccount ctx3.world receiver
              (sdk.NewCoins [newCoin])
            let ctx4 := Ctx.mk ctx3.store sent.1
              (ctx3.calls ++ [Call.SendCoinsFromModuleToAccount receiver (sdk.NewCoins [newCoin])])
            match sent.2 with
            | some e => (Ret.err (Error.Supply e), ctx4)
            | none => (Ret.nil, ctx4) := by
  unfold Keeper.tooOften at hrl
  unfold Keeper.MintAndSend
  rw [if_neg hd, hm]
  simp only [hrl, Bool.false_eq_true, if_false]

/-- Past the two checks, `MintAndSend` never returns the rate-limit error. -/
theorem Keeper.MintAndSend_admitted_ne_tooOften (lib : Libs) (k : Keeper W) (ctx : Ctx W)
    (sender receiver : AccAddress) (mintTime : Int) (denom : String) (mining : Mining)
    (hd : denom ≠ k.StakingKeeper.BondDenom ctx.world)
    (hm : k.getMining ctx sender = some mining)
    (hrl : k.tooOften ctx sender mining mintTime = false) :
    (k.MintAndSend lib ctx sender receiver mintTime denom).1 ≠
      Ret.err Error.ErrWithdrawTooOften := by
  rw [k.MintAndSend_admitted lib ctx sender receiver mintTime denom mining hd hm hrl]
  cases hc : sdk.NewCoin lib denom (sdk.NewInt k.amount) with
  | none => simp
  | some newCoin =>
    simp only
    split
    · simp
    · split
      · simp
      · split <;> simp

/-- The store that `MintAndSend` leaves past the two checks is the one `setMining` produced,
whatever the collaborators answer. -/
theorem Keeper.MintAndSend_admitted_store (lib : Libs) (k : Keeper W) (ctx : Ctx W)
    (sender receiver : AccAddress) (mintTime : Int) (denom : String) (mining : Mining)
    (newCoin : Coin)
    (hd : denom ≠ k.StakingKeeper.BondDenom ctx.world)
    (hm : k.getMining ctx sender = some mining)
    (hrl : k.tooOften ctx sender mining mintTime = false)
    (hc : sdk.NewCoin lib denom (sdk.NewInt k.amount) = some newCoin) :
    (k.MintAndSend lib ctx sender receiver mintTime denom).2.store =
      (k.setMining ctx sender
        (Mining.mk mining.Minter mintTime (add64 mining.Tally k.amount))).store := by
  rw [k.MintAndSend_admitted lib ctx sender receiver mintTime denom mining hd hm hrl, hc]
  simp only
  split
  · rfl
  · split
    · rfl
    · split <;> rfl

/-- Every `MintAndSend` call either leaves the context as it was and does not succeed, or
passed both checks and built its coin, and then leaves the store that `setMining` produced. -/
theorem Keeper.MintAndSend_cases (lib : Libs) (k : Keeper W) (ctx : Ctx W)
    (sender receiver : AccAddress) (mintTime : Int) (denom : String) :
    ((k.MintAndSend lib ctx sender receiver mintTime denom).2 = ctx ∧
      (k.MintAndSend lib ctx sender receiver mintTime denom).1 ≠ Ret.nil) ∨
    (∃ mining newCoin, denom ≠ k.StakingKeeper.BondDenom ctx.world ∧
      k.getMining ctx sender = some mining ∧
      k.tooOften ctx sender mining mintTime = false ∧
      sdk.NewCoin lib denom (sdk.NewInt k.amount) = some newCoin ∧
      (k.MintAndSend lib ctx sender receiver mintTime denom).2.store =
        (k.setMining ctx sender
          (Mining.mk mining.Minter mintTime (add64 mining.Tally k.amount))).store) := by
  by_cases hd : denom = k.StakingKeeper.BondDenom ctx.world
  · left
    rw [k.MintAndSend_bond lib ctx sender receiver mintTime denom hd]
    simp
  · cases hm : k.getMining ctx sender with
    | none =>
      left
      rw [k.MintAndSend_undecodable lib ctx sender receiver mintTime denom hd hm]
      simp
    | some mining =>
      cases hrl : k.tooOften ctx sender mining mintTime with
      | true =>
        left
        rw [k.MintAndSend_tooOften lib ctx sender receiver mintTime denom mining hd hm hrl]
        simp
      | false =>
        cases hc : sdk.NewCoin lib denom (sdk.NewInt k.amount) with
        | none =>
          left
          rw [k.MintAndSend_admitted lib ctx sender receiver mintTime denom mining hd hm hrl, hc]
          simp
        | some newCoin =>
          right
          exact ⟨mining, newCoin, hd, rfl, hrl, rfl,
            k.MintAndSend_admitted_store lib ctx sender receiver mintTime denom mining newCoin
              hd hm hrl hc⟩

/-! ## The mining record store -/

theorem AccAddress.eq_of_bytes_eq (a b : AccAddress) (h : a.Bytes = b.Bytes) : a = b := by
  cases a
  cases b
  simpa [AccAddress.Bytes] using h

theorem Keeper.isPresent_of_store_eq (k : Keeper W) (ctx ctx1 : Ctx W) (a : AccAddress)
    (h : ctx1.store = ctx.store) : k.isPresent ctx1 a = k.isPresent ctx a := by
  simp [Keeper.isPresent, h]

theorem Keeper.getMining_of_store_eq (k : Keeper W) (ctx ctx1 : Ctx W) (a : AccAddress)
    (h : ctx1.store = ctx.store) : k.getMining ctx1 a = k.getMining ctx a := by
  simp [Keeper.getMining, Keeper.isPresent, h]

theorem Keeper.setMining_world (k : Keeper W) (ctx : Ctx W) (a : AccAddress) (m : Mining) :
    (k.setMining ctx a m).world = ctx.world := by
  rw [Keeper.setMining_eq]
  split_ifs <;> rfl

theorem Keeper.setMining_calls (k : Keeper W) (ctx : Ctx W) (a : AccAddress) (m : Mining) :
    (k.setMining ctx a m).calls = ctx.calls := by
  rw [Keeper.setMining_eq]
  split_ifs <;> rfl

/-- A record with a non-empty address and a non-zero tally, once set, is present and read
back as it was written. -/
theorem Keeper.getMining_setMining (k : Keeper W) (ctx : Ctx W) (a : AccAddress) (m : Mining)
    (hcdc : k.cdc.MiningRoundTrip) (haddr : m.Minter.Empty = false) (htally : m.Tally ≠ 0) :
    k.isPresent (k.setMining ctx a m) a = true ∧ k.getMining (k.setMining ctx a m) a = some m := by
  have hp : k.isPresent (k.setMining ctx a m) a = true := by
    simp [Keeper.setMining_eq, haddr, htally, Keeper.isPresent, KVStore.has_put_same]
  refine ⟨hp, ?_⟩
  unfold Keeper.getMining
  rw [hp]
  simp [Keeper.setMining_eq, haddr, htally, KVStore.get_put_same, hcdc m]

/-- The write of `setMining` does not touch the entries under other keys. -/
theorem Keeper.setMining_other (k : Keeper W) (ctx : Ctx W) (a b : AccAddress) (m : Mining)
    (h : b.Bytes ≠ a.Bytes) :
    k.isPresent (k.setMining ctx a m) b = k.isPresent ctx b ∧
      k.getMining (k.setMining ctx a m) b = k.getMining ctx b := by
  rw [Keeper.setMining_eq]
  split_ifs
  · exact ⟨rfl, rfl⟩
  · exact ⟨rfl, rfl⟩
  · simp [Keeper.getMining, Keeper.isPresent, KVStore.has_put_other _ _ _ _ h,
      KVStore.get_put_other _ _ _ _ h]

/-! ## The sample codec -/

theorem decodeInt_encodeInt (x : Int) :
    decodeInt (if x < 0 then 1 else 0) x.natAbs = x := by
  unfold decodeInt
  split_ifs with h1 h2 h2
  · simp at h2
  · omega
  · omega
  · simp at h2

theorem sampleCodec_miningRoundTrip : sampleCodec.MiningRoundTrip := by
  intro m
  obtain ⟨⟨bz⟩, t, n⟩ := m
  simp [sampleCodec, encodeInt, decodeInt_encodeInt]

theorem sampleCodec_faucetKeyRoundTrip : sampleCodec.FaucetKeyRoundTrip := by
  intro f hf
  obtain ⟨⟨cs⟩⟩ := f
  refine ⟨1 :: cs.map Char.toNat, ?_, ?_⟩
  · simp only [sampleCodec]
    rw [if_neg hf]
  · simp [sampleCodec, List.map_map, Function.comp_def]

theorem sampleCodec_nilIsZero : sampleCodec.NilIsZeroFaucetKey := rfl

/-! ## C1 : the rate limit -/

/-- C1, as the code has it. Let the denom differ from the bond denom and let the time
arithmetic stay within `int64` (`time.Unix` of the request time, and of the `LastTime` of a
persisted record, also after the cooldown is added). Then `MintAndSend` returns
`ErrWithdrawTooOften` exactly when a record is persisted for the sender and its `LastTime`
(seconds) plus the cooldown `Limit` (nanoseconds) is later than the request time; in that case
the context (store, world and the log of Supply and Account calls) is unchanged; and a request
at exactly `LastTime + Limit` is not rate limited. -/
theorem Keeper.MintAndSend_rate_limited_iff (lib : Libs) (k : Keeper W) (ctx : Ctx W)
    (sender receiver : AccAddress) (mintTime : Int) (denom : String)
    (hd : denom ≠ k.StakingKeeper.BondDenom ctx.world)
    (hlast : ∀ record, k.isPresent ctx sender = true → k.getMining ctx sender = some record →
      k.TimeOk record.LastTime)
    (hmint : IsInt64 (mintTime + time.unixToInternal)) :
    ((k.MintAndSend lib ctx sender receiver mintTime denom).1 = Ret.err Error.ErrWithdrawTooOften ↔
      (k.isPresent ctx sender = true ∧ ∃ record, k.getMining ctx sender = some record ∧
        record.LastTime * 1000000000 + k.Limit > mintTime * 1000000000)) ∧
    ((k.MintAndSend lib ctx sender receiver mintTime denom).1 = Ret.err Error.ErrWithdrawTooOften →
      (k.MintAndSend lib ctx sender receiver mintTime denom).2 = ctx) ∧
    (∀ record, k.getMining ctx sender = some record →
      mintTime * 1000000000 = record.LastTime * 1000000000 + k.Limit →
      (k.MintAndSend lib ctx sender receiver mintTime denom).1 ≠
        Ret.err Error.ErrWithdrawTooOften) := by
  cases hm : k.getMining ctx sender with
  | none =>
    rw [k.MintAndSend_undecodable lib ctx sender receiver mintTime denom hd hm]
    simp
  | some mining =>
    have hiff : k.tooOften ctx sender mining mintTime = true ↔
        (k.isPresent ctx sender = true ∧
          mining.LastTime * 1000000000 + k.Limit > mintTime * 1000000000) := by
      by_cases hp : k.isPresent ctx sender = true
      · exact k.tooOften_iff ctx sender mining mintTime (hlast mining hp hm) hmint
      · have hp2 : k.isPresent ctx sender = false := by simpa using hp
        simp [k.tooOften_absent ctx sender mining mintTime hp2, hp2]
    cases hrl : k.tooOften ctx sender mining mintTime with
    | true =>
      have hcond := hiff.mp hrl
      rw [k.MintAndSend_tooOften lib ctx sender receiver mintTime denom mining hd hm hrl]
      refine ⟨?_, ?_, ?_⟩
      · simp only [true_iff]
        exact ⟨hcond.1, mining, rfl, hcond.2⟩
      · intro _
        rfl
      · intro record hrec hexact
        cases hrec
        omega
    | false =>
      have hcond : ¬ (k.isPresent ctx sender = true ∧
          mining.LastTime * 1000000000 + k.Limit > mintTime * 1000000000) := by
        intro hc
        rw [hiff.mpr hc] at hrl
        exact absurd hrl (by simp)
      have hne := k.MintAndSend_admitted_ne_tooOften lib ctx sender receiver mintTime denom
        mining hd hm hrl
      refine ⟨?_, ?_, ?_⟩
      · constructor
        · intro h
          exact absurd h hne
        · rintro ⟨hp, record, hrec, ht⟩
          cases hrec
          exact absurd ⟨hp, ht⟩ hcond
      · intro h
        exact absurd h hne
      · intro _ _ _
        exact hne

/-- C1, evaluated: after a mint at time 100 with a cooldown of 10 s, a request at 109 is
rate limited and a request at 110 is not. -/
theorem Keeper.MintAndSend_rate_limited_iff_witness :
    ("🪙" ≠ (sampleKeeper 5 10000000000 false false).StakingKeeper.BondDenom
        ((sampleKeeper 5 10000000000 false false).call sampleLibs (Ctx.init 0)
          (MintCall.mk alice bob 100 "🪙")).2.world) ∧
    (sampleKeeper 5 10000000000 false false).getMining
        ((sampleKeeper 5 10000000000 false false).call sampleLibs (Ctx.init 0)
          (MintCall.mk alice bob 100 "🪙")).2 alice = some (Mining.mk alice 100 5) ∧
    (sampleKeeper 5 10000000000 false false).TimeOk (Mining.mk alice 100 5).LastTime ∧
    IsInt64 (109 + time.unixToInternal) ∧ IsInt64 (110 + time.unixToInternal) ∧
    ((sampleKeeper 5 10000000000 false false).MintAndSend sampleLibs
        ((sampleKeeper 5 10000000000 false false).call sampleLibs (Ctx.init 0)
          (MintCall.mk alice bob 100 "🪙")).2 alice bob 109 "🪙").1 =
      Ret.err Error.ErrWithdrawTooOften ∧
    ((sampleKeeper 5 10000000000 false false).MintAndSend sampleLibs
        ((sampleKeeper 5 10000000000 false false).call sampleLibs (Ctx.init 0)
          (MintCall.mk alice bob 100 "🪙")).2 alice bob 110 "🪙").1 ≠
      Ret.err Error.ErrWithdrawTooOften :=
  have hrec : (sampleKeeper 5 10000000000 false false).getMining
      ((sampleKeeper 5 10000000000 false false).call sampleLibs (Ctx.init 0)
        (MintCall.mk alice bob 100 "🪙")).2 alice = some (Mining.mk alice 100 5) := by decide
  have hlast : ∀ record, (sampleKeeper 5 10000000000 false false).isPresent
      ((sampleKeeper 5 10000000000 false false).call sampleLibs (Ctx.init 0)
        (MintCall.mk alice bob 100 "🪙")).2 alice = true →
      (sampleKeeper 5 10000000000 false false).getMining
        ((sampleKeeper 5 10000000000 false false).call sampleLibs (Ctx.init 0)
          (MintCall.mk alice bob 100 "🪙")).2 alice = some record →
      (sampleKeeper 5 10000000000 false false).TimeOk record.LastTime := by
    intro record _ h
    rw [hrec] at h
    cases h
    decide
  ⟨by decide, hrec, by decide, by decide, by decide,
   ((Keeper.MintAndSend_rate_limited_iff sampleLibs (sampleKeeper 5 10000000000 false false)
      ((sampleKeeper 5 10000000000 false false).call sampleLibs (Ctx.init 0)
        (MintCall.mk alice bob 100 "🪙")).2 alice bob 109 "🪙" (by decide) hlast
        (by decide)).1).mpr
      ⟨by decide, Mining.mk alice 100 5, by decide, by decide⟩,
   (Keeper.MintAndSend_rate_limited_iff sampleLibs (sampleKeeper 5 10000000000 false false)
      ((sampleKeeper 5 10000000000 false false).call sampleLibs (Ctx.init 0)
        (MintCall.mk alice bob 100 "🪙")).2 alice bob 110 "🪙" (by decide) hlast
        (by decide)).2.2
      (Mining.mk alice 100 5) (by decide) (by decide)⟩

/-- C1 fails as stated at the end of the `int64` range: with a record of `alice` at time 100
and a cooldown of 10 s, a request at time 9223372036854775807 is refused with
`ErrWithdrawTooOften`, because `time.Unix` of that request time wraps around to a time before
the record's, although 100 s plus the cooldown is not later than the request time. -/
theorem Keeper.MintAndSend_rate_limited_iff_counterexample :
    (sampleKeeper 5 10000000000 false false).getMining
        ((sampleKeeper 5 10000000000 false false).call sampleLibs (Ctx.init 0)
          (MintCall.mk alice bob 100 "🪙")).2 alice = some (Mining.mk alice 100 5) ∧
    ((sampleKeeper 5 10000000000 false false).MintAndSend sampleLibs
        ((sampleKeeper 5 10000000000 false false).call sampleLibs (Ctx.init 0)
          (MintCall.mk alice bob 100 "🪙")).2 alice bob 9223372036854775807 "🪙").1 =
      Ret.err Error.ErrWithdrawTooOften ∧
    ¬ ((Mining.mk alice 100 5).LastTime * 1000000000 +
        (sampleKeeper 5 10000000000 false false).Limit >
      9223372036854775807 * 1000000000) := by
  decide

/-! ## C5 : the bond denom -/

/-- C5. Called with the bond denom of the Staking collaborator, `MintAndSend` returns
`ErrCantWithdrawStake` and leaves the context as it was: the store, the world and the log of
Supply and Account calls are unchanged, whatever the store holds for the sender. -/
theorem Keeper.MintAndSend_bond_denom (lib : Libs) (k : Keeper W) (ctx : Ctx W)
    (sender receiver : AccAddress) (mintTime : Int) (denom : String)
    (hd : denom = k.StakingKeeper.BondDenom ctx.world) :
    (k.MintAndSend lib ctx sender receiver mintTime denom).1 =
        Ret.err Error.ErrCantWithdrawStake ∧
      (k.MintAndSend lib ctx sender receiver mintTime denom).2.store = ctx.store ∧
      (k.MintAndSend lib ctx sender receiver mintTime denom).2.calls = ctx.calls ∧
      (k.MintAndSend lib ctx sender receiver mintTime denom).2 = ctx := by
  rw [k.MintAndSend_bond lib ctx sender receiver mintTime denom hd]
  exact ⟨rfl, rfl, rfl, rfl⟩

/-- C5, evaluated on a fresh store with the bond denom "stake". -/
theorem Keeper.MintAndSend_bond_denom_witness :
    "stake" = (sampleKeeper 5 10000000000 false false).StakingKeeper.BondDenom
        (Ctx.init (0 : Int)).world ∧
      ((sampleKeeper 5 10000000000 false false).MintAndSend sampleLibs (Ctx.init 0)
        alice bob 100 "stake").1 = Ret.err Error.ErrCantWithdrawStake ∧
      ((sampleKeeper 5 10000000000 false false).MintAndSend sampleLibs (Ctx.init 0)
        alice bob 100 "stake").2.store = (Ctx.init (0 : Int)).store ∧
      ((sampleKeeper 5 10000000000 false false).MintAndSend sampleLibs (Ctx.init 0)
        alice bob 100 "stake").2.calls = (Ctx.init (0 : Int)).calls ∧
      ((sampleKeeper 5 10000000000 false false).MintAndSend sampleLibs (Ctx.init 0)
        alice bob 100 "stake").2 = Ctx.init 0 :=
  ⟨by decide,
   Keeper.MintAndSend_bond_denom sampleLibs (sampleKeeper 5 10000000000 false false)
    (Ctx.init 0) alice bob 100 "stake" (by decide)⟩

/-! ## C3 : the record after a successful mint -/

/-- C3, as the code has it. When `MintAndSend` returns success, the record it read for the
sender has a non-empty address and the new tally (`int64` sum of the tally before and the
configured amount) is not zero, then the record read back afterwards has that new tally and
`LastTime` equal to the request time. (With an empty address or a zero new tally `setMining`
skips the write.) -/
theorem Keeper.MintAndSend_success_record (lib : Libs) (k : Keeper W) (ctx : Ctx W)
    (sender receiver : AccAddress) (mintTime : Int) (denom : String) (before : Mining)
    (hcdc : k.cdc.MiningRoundTrip)
    (hok : (k.MintAndSend lib ctx sender receiver mintTime denom).1 = Ret.nil)
    (hbefore : k.getMining ctx sender = some before)
    (haddr : before.Minter.Empty = false)
    (htally : add64 before.Tally k.amount ≠ 0) :
    ∃ after, k.getMining (k.MintAndSend lib ctx sender receiver mintTime denom).2 sender =
        some after ∧
      after.Tally = add64 before.Tally k.amount ∧ after.LastTime = mintTime ∧
      after.Minter = before.Minter := by
  rcases k.MintAndSend_cases lib ctx sender receiver mintTime denom with h | h
  · exact absurd hok h.2
  · obtain ⟨mining, newCoin, _, hm, _, _, hstore⟩ := h
    rw [hbefore] at hm
    cases hm
    refine ⟨Mining.mk before.Minter mintTime (add64 before.Tally k.amount), ?_, rfl, rfl, rfl⟩
    rw [k.getMining_of_store_eq _ _ sender hstore]
    exact (k.getMining_setMining ctx sender
      (Mining.mk before.Minter mintTime (add64 before.Tally k.amount)) hcdc haddr htally).2

/-- C3, evaluated: the first mint of 5 units at time 100. -/
theorem Keeper.MintAndSend_success_record_witness :
    (sampleKeeper 5 10000000000 false false).cdc.MiningRoundTrip ∧
    ((sampleKeeper 5 10000000000 false false).MintAndSend sampleLibs (Ctx.init 0)
      alice bob 100 "🪙").1 = Ret.nil ∧
    (sampleKeeper 5 10000000000 false false).getMining (Ctx.init 0) alice =
      some (NewMining alice 0) ∧
    ∃ after, (sampleKeeper 5 10000000000 false false).getMining
        ((sampleKeeper 5 10000000000 false false).MintAndSend sampleLibs (Ctx.init 0)
          alice bob 100 "🪙").2 alice = some after ∧
      after.Tally = add64 (NewMining alice 0).Tally (sampleKeeper 5 10000000000 false false).amount ∧
      after.LastTime = 100 ∧ after.Minter = (NewMining alice 0).Minter :=
  ⟨sampleCodec_miningRoundTrip, by decide, by decide,
   Keeper.MintAndSend_success_record sampleLibs (sampleKeeper 5 10000000000 false false)
    (Ctx.init 0) alice bob 100 "🪙" (NewMining alice 0) sampleCodec_miningRoundTrip
    (by decide) (by decide) (by decide) (by decide)⟩

/-- C3 fails as stated when the configured amount is 0: the call at time 100 succeeds, the
new tally is 0, `setMining` skips the write, and the record read back is still the
zero-value record with `LastTime = 0`, not 100. -/
theorem Keeper.MintAndSend_success_record_counterexample :
    ((sampleKeeper 0 10000000000 false false).MintAndSend sampleLibs (Ctx.init 0)
      alice bob 100 "🪙").1 = Ret.nil ∧
    (sampleKeeper 0 10000000000 false false).getMining
      ((sampleKeeper 0 10000000000 false false).MintAndSend sampleLibs (Ctx.init 0)
        alice bob 100 "🪙").2 alice = some (Mining.mk alice 0 0) ∧
    ¬ ((Mining.mk alice 0 0).LastTime = 100) := by
  decide

/-! ## C2 : two successes of one sender -/

/-- A request that passed the rate-limit test against a persisted record is not earlier than
the record's `LastTime` plus the cooldown, where the time arithmetic stays within `int64`. -/
theorem Keeper.not_tooOften_ge (k : Keeper W) (ctx : Ctx W) (s : AccAddress) (m : Mining)
    (t : Int) (hp : k.isPresent ctx s = true) (hlast : k.TimeOk m.LastTime)
    (ht : IsInt64 (t + time.unixToInternal)) (hrl : k.tooOften ctx s m t = false) :
    ¬ (m.LastTime * 1000000000 + k.Limit > t * 1000000000) := by
  intro hgt
  rw [(k.tooOften_iff ctx s m t hlast ht).mpr ⟨hp, hgt⟩] at hrl
  exact absurd hrl (by simp)

/-- With a non-negative cooldown and request times on which the time arithmetic stays within
`int64`, a call keeps a persisted record of `s` persisted and does not move its `LastTime`
before `t`. -/
theorem Keeper.call_keeps_lastTime_bound (lib : Libs) (k : Keeper W) (ctx : Ctx W)
    (c : MintCall) (s : AccAddress) (t : Int)
    (hcdc : k.cdc.MiningRoundTrip) (hlimit : 0 ≤ k.Limit) (htime : k.TimeOk c.mintTime)
    (hinv : k.isPresent ctx s = true ∧
      ∃ m, k.getMining ctx s = some m ∧ t ≤ m.LastTime ∧ k.TimeOk m.LastTime) :
    k.isPresent (k.call lib ctx c).2 s = true ∧
      ∃ m, k.getMining (k.call lib ctx c).2 s = some m ∧ t ≤ m.LastTime ∧
        k.TimeOk m.LastTime := by
  unfold Keeper.call
  rcases k.MintAndSend_cases lib ctx c.sender c.receiver c.mintTime c.denom with h | h
  · rw [h.1]
    exact hinv
  · obtain ⟨mining, newCoin, _, hm, hrl, _, hstore⟩ := h
    rw [k.isPresent_of_store_eq _ _ s hstore, k.getMining_of_store_eq _ _ s hstore]
    by_cases hs : s.Bytes = c.sender.Bytes
    · have hsc : s = c.sender := AccAddress.eq_of_bytes_eq _ _ hs
      subst hsc
      obtain ⟨hp, m, hm2, hle, hok⟩ := hinv
      rw [hm] at hm2
      cases hm2
      have hge := k.not_tooOften_ge ctx c.sender mining c.mintTime hp hok htime.1 hrl
      by_cases hskip : mining.Minter.Empty = true ∨ add64 mining.Tally k.amount = 0
      · have hsame : k.setMining ctx c.sender
            (Mining.mk mining.Minter c.mintTime (add64 mining.Tally k.amount)) = ctx := by
          rw [Keeper.setMining_eq]
          rcases hskip with h1 | h1
          · simp [h1]
          · simp [h1]
        rw [hsame]
        exact ⟨hp, mining, hm, hle, hok⟩
      · have haddr : mining.Minter.Empty = false := by
          cases hE : mining.Minter.Empty
          · rfl
          · exact absurd (Or.inl hE) hskip
        have htally : add64 mining.Tally k.amount ≠ 0 := fun h0 => hskip (Or.inr h0)
        have hset := k.getMining_setMining ctx c.sender
          (Mining.mk mining.Minter c.mintTime (add64 mining.Tally k.amount)) hcdc haddr htally
        refine ⟨hset.1, _, hset.2, ?_, htime⟩
        show t ≤ c.mintTime
        omega
    · have hother := k.setMining_other ctx c.sender s
        (Mining.mk mining.Minter c.mintTime (add64 mining.Tally k.amount)) hs
      rw [hother.1, hother.2]
      exact hinv

theorem Keeper.runCalls_keeps_lastTime_bound (lib : Libs) (k : Keeper W) (cs : List MintCall)
    (s : AccAddress) (t : Int) (hcdc : k.cdc.MiningRoundTrip) (hlimit : 0 ≤ k.Limit) :
    ∀ ctx : Ctx W, (∀ c ∈ cs, k.TimeOk c.mintTime) →
      (k.isPresent ctx s = true ∧
        ∃ m, k.getMining ctx s = some m ∧ t ≤ m.LastTime ∧ k.TimeOk m.LastTime) →
      k.isPresent (k.runCalls lib ctx cs) s = true ∧
        ∃ m, k.getMining (k.runCalls lib ctx cs) s = some m ∧ t ≤ m.LastTime ∧
          k.TimeOk m.LastTime := by
  induction cs with
  | nil =>
    intro ctx _ hinv
    exact hinv
  | cons c cs ih =>
    intro ctx htimes hinv
    exact ih _ (fun c1 hc1 => htimes c1 (List.mem_cons_of_mem c hc1))
      (k.call_keeps_lastTime_bound lib ctx c s t hcdc hlimit
        (htimes c (List.mem_cons_self c cs)) hinv)

/-- C2, as the code has it. Let the cooldown be non-negative and let the time arithmetic stay
within `int64` on every request time (`time.Unix` of it, also after the cooldown is added).
If a call at time `t1` succeeds and its record update is persisted (the record it read has a
non-empty address and the new `int64` tally is not zero), then, whatever calls come in
between, a later successful call of the same sender at time `t2` has `t2 ≥ t1 + Limit` (times
in seconds, `Limit` in nanoseconds). -/
theorem Keeper.successes_cooldown_apart (lib : Libs) (k : Keeper W) (ctx : Ctx W)
    (c1 c2 : MintCall) (between : List MintCall) (before : Mining)
    (hcdc : k.cdc.MiningRoundTrip) (hlimit : 0 ≤ k.Limit)
    (htime1 : k.TimeOk c1.mintTime)
    (htimes : ∀ c ∈ between, k.TimeOk c.mintTime)
    (htime2 : IsInt64 (c2.mintTime + time.unixToInternal))
    (hsender : c2.sender = c1.sender)
    (hok1 : (k.call lib ctx c1).1 = Ret.nil)
    (hbefore : k.getMining ctx c1.sender = some before)
    (haddr : before.Minter.Empty = false)
    (htally : add64 before.Tally k.amount ≠ 0)
    (hok2 : (k.call lib (k.runCalls lib (k.call lib ctx c1).2 between) c2).1 = Ret.nil) :
    c2.mintTime * 1000000000 ≥ c1.mintTime * 1000000000 + k.Limit := by
  have hinv1 : k.isPresent (k.call lib ctx c1).2 c1.sender = true ∧
      ∃ m, k.getMining (k.call lib ctx c1).2 c1.sender = some m ∧ c1.mintTime ≤ m.LastTime ∧
        k.TimeOk m.LastTime := by
    unfold Keeper.call at hok1 ⊢
    rcases k.MintAndSend_cases lib ctx c1.sender c1.receiver c1.mintTime c1.denom with h | h
    · exact absurd hok1 h.2
    · obtain ⟨mining, newCoin, _, hm, _, _, hstore⟩ := h
      rw [hbefore] at hm
      cases hm
      rw [k.isPresent_of_store_eq _ _ _ hstore, k.getMining_of_store_eq _ _ _ hstore]
      have hset := k.getMining_setMining ctx c1.sender
        (Mining.mk before.Minter c1.mintTime (add64 before.Tally k.amount)) hcdc haddr htally
      exact ⟨hset.1, _, hset.2, le_refl _, htime1⟩
  obtain ⟨hp, m, hm, hle, hok⟩ := k.runCalls_keeps_lastTime_bound lib between c1.sender
    c1.mintTime hcdc hlimit _ htimes hinv1
  unfold Keeper.call at hok2
  rw [hsender] at hok2
  rcases k.MintAndSend_cases lib (k.runCalls lib (k.call lib ctx c1).2 between) c1.sender
    c2.receiver c2.mintTime c2.denom with h | h
  · exact absurd hok2 h.2
  · obtain ⟨mining, _, _, hm2, hrl, _, _⟩ := h
    rw [hm] at hm2
    cases hm2
    have hge := k.not_tooOften_ge _ c1.sender m c2.mintTime hp hok htime2 hrl
    omega

/-- C2, evaluated: cooldown 10 s, a mint at 100, then a refused request at 105 and a mint of
another sender at 106, then a mint at 110. -/
theorem Keeper.successes_cooldown_apart_witness :
    (sampleKeeper 5 10000000000 false false).cdc.MiningRoundTrip ∧
    0 ≤ (sampleKeeper 5 10000000000 false false).Limit ∧
    (sampleKeeper 5 10000000000 false false).TimeOk (MintCall.mk alice bob 100 "🪙").mintTime ∧
    (∀ c ∈ [MintCall.mk alice bob 105 "🪙", MintCall.mk bob alice 106 "🪙"],
      (sampleKeeper 5 10000000000 false false).TimeOk c.mintTime) ∧
    IsInt64 ((MintCall.mk alice bob 110 "🪙").mintTime + time.unixToInternal) ∧
    ((sampleKeeper 5 10000000000 false false).call sampleLibs (Ctx.init 0)
      (MintCall.mk alice bob 100 "🪙")).1 = Ret.nil ∧
    ((sampleKeeper 5 10000000000 false false).call sampleLibs
      ((sampleKeeper 5 10000000000 false false).runCalls sampleLibs
        ((sampleKeeper 5 10000000000 false false).call sampleLibs (Ctx.init 0)
          (MintCall.mk alice bob 100 "🪙")).2
        [MintCall.mk alice bob 105 "🪙", MintCall.mk bob alice 106 "🪙"])
      (MintCall.mk alice bob 110 "🪙")).1 = Ret.nil ∧
    (MintCall.mk alice bob 110 "🪙").mintTime * 1000000000 ≥
      (MintCall.mk alice bob 100 "🪙").mintTime * 1000000000 +
        (sampleKeeper 5 10000000000 false false).Limit :=
  ⟨sampleCodec_miningRoundTrip, by decide, by decide, by decide, by decide, by decide,
   by decide,
   Keeper.successes_cooldown_apart sampleLibs (sampleKeeper 5 10000000000 false false)
    (Ctx.init 0) (MintCall.mk alice bob 100 "🪙") (MintCall.mk alice bob 110 "🪙")
    [MintCall.mk alice bob 105 "🪙", MintCall.mk bob alice 106 "🪙"] (NewMining alice 0)
    sampleCodec_miningRoundTrip (by decide) (by decide) (by decide) (by decide) rfl
    (by decide) (by decide) (by decide) (by decide) (by decide)⟩

/-- C2 fails as stated when the configured amount is 0: with a cooldown of 10 s the same
sender mints successfully at time 100 and again at time 101, because no record is ever
persisted. -/
theorem Keeper.successes_cooldown_apart_counterexample :
    ((sampleKeeper 0 10000000000 false false).call sampleLibs (Ctx.init 0)
      (MintCall.mk alice bob 100 "🪙")).1 = Ret.nil ∧
    ((sampleKeeper 0 10000000000 false false).call sampleLibs
      ((sampleKeeper 0 10000000000 false false).call sampleLibs (Ctx.init 0)
        (MintCall.mk alice bob 100 "🪙")).2
      (MintCall.mk alice bob 101 "🪙")).1 = Ret.nil ∧
    ¬ ((101 : Int) * 1000000000 ≥
      100 * 1000000000 + (sampleKeeper 0 10000000000 false false).Limit) := by
  decide

/-! ## C4 : requests during the cooldown -/

/-- While the sender's record is persisted with `LastTime = t0`, requests made before
`t0 + Limit` with a denom other than the bond denom are all refused and change nothing,
where the time arithmetic stays within `int64`. -/
theorem Keeper.calls_during_cooldown (lib : Libs) (k : Keeper W) (ctx : Ctx W)
    (s : AccAddress) (record : Mining) (hp : k.isPresent ctx s = true)
    (hrecord : k.getMining ctx s = some record) (hlast : k.TimeOk record.LastTime) :
    ∀ cs : List MintCall,
      (∀ c ∈ cs, c.sender = s ∧ c.denom ≠ k.StakingKeeper.BondDenom ctx.world ∧
        IsInt64 (c.mintTime + time.unixToInternal) ∧
        c.mintTime * 1000000000 < record.LastTime * 1000000000 + k.Limit) →
      k.callResults lib ctx cs = cs.map (fun _ => Ret.err Error.ErrWithdrawTooOften) ∧
        k.runCalls lib ctx cs = ctx := by
  intro cs
  induction cs with
  | nil =>
    intro _
    exact ⟨rfl, rfl⟩
  | cons c cs ih =>
    intro h
    obtain ⟨hs, hd, hrange, ht⟩ := h c (List.mem_cons_self c cs)
    have hcall : k.call lib ctx c = (Ret.err Error.ErrWithdrawTooOften, ctx) := by
      unfold Keeper.call
      rw [hs]
      exact k.MintAndSend_tooOften lib ctx s c.receiver c.mintTime c.denom record hd hrecord
        ((k.tooOften_iff ctx s record c.mintTime hlast hrange).mpr ⟨hp, by omega⟩)
    have ih2 := ih (fun c1 hc1 => h c1 (List.mem_cons_of_mem c hc1))
    simp only [Keeper.callResults, Keeper.runCalls, hcall, List.map_cons]
    exact ⟨by rw [ih2.1], ih2.2⟩

/-- C4, as the code has it. Let the sender be non-empty with no prior record, the amount a
non-zero `int64`, and let the time arithmetic stay within `int64` on the request times. If the
first request, at `t0`, succeeds, its record is (tally = amount, lastTime = t0), and every
later request of that sender made before `t0 + Limit` (counted from the first success, not
from the previous request) with a denom other than the bond denom fails with
`ErrWithdrawTooOften` and leaves the whole context, the record included, as the first success
left it. -/
theorem Keeper.later_requests_rate_limited (lib : Libs) (k : Keeper W) (ctx : Ctx W)
    (c0 : MintCall) (cs : List MintCall)
    (hcdc : k.cdc.MiningRoundTrip)
    (haddr : c0.sender.Empty = false)
    (hnew : k.isPresent ctx c0.sender = false)
    (hrange : IsInt64 k.amount) (hamount : k.amount ≠ 0)
    (htime0 : k.TimeOk c0.mintTime)
    (hok : (k.call lib ctx c0).1 = Ret.nil)
    (hlater : ∀ c ∈ cs, c.sender = c0.sender ∧
      c.denom ≠ k.StakingKeeper.BondDenom (k.call lib ctx c0).2.world ∧
      IsInt64 (c.mintTime + time.unixToInternal) ∧
      c.mintTime * 1000000000 < c0.mintTime * 1000000000 + k.Limit) :
    k.getMining (k.call lib ctx c0).2 c0.sender =
        some (Mining.mk c0.sender c0.mintTime k.amount) ∧
      k.callResults lib (k.call lib ctx c0).2 cs =
        cs.map (fun _ => Ret.err Error.ErrWithdrawTooOften) ∧
      k.runCalls lib (k.call lib ctx c0).2 cs = (k.call lib ctx c0).2 := by
  have hfresh : k.getMining ctx c0.sender = some (NewMining c0.sender 0) := by
    simp [Keeper.getMining, hnew]
  have hrec : k.isPresent (k.call lib ctx c0).2 c0.sender = true ∧
      k.getMining (k.call lib ctx c0).2 c0.sender =
        some (Mining.mk c0.sender c0.mintTime k.amount) := by
    unfold Keeper.call at hok ⊢
    rcases k.MintAndSend_cases lib ctx c0.sender c0.receiver c0.mintTime c0.denom with h | h
    · exact absurd hok h.2
    · obtain ⟨mining, newCoin, _, hm, _, _, hstore⟩ := h
      rw [hfresh] at hm
      cases hm
      rw [k.isPresent_of_store_eq _ _ _ hstore, k.getMining_of_store_eq _ _ _ hstore]
      have hsum : add64 (NewMining c0.sender 0).Tally k.amount = k.amount :=
        add64_zero_left k.amount hrange
      rw [hsum]
      exact k.getMining_setMining ctx c0.sender (Mining.mk c0.sender c0.mintTime k.amount)
        hcdc haddr hamount
  exact ⟨hrec.2, k.calls_during_cooldown lib (k.call lib ctx c0).2 c0.sender
    (Mining.mk c0.sender c0.mintTime k.amount) hrec.1 hrec.2 htime0 cs hlater⟩

/-- C4, evaluated: cooldown 10 s, a mint at 100, then requests at 103, 106 and 109. -/
theorem Keeper.later_requests_rate_limited_witness :
    (sampleKeeper 5 10000000000 false false).cdc.MiningRoundTrip ∧
    (MintCall.mk alice bob 100 "🪙").sender.Empty = false ∧
    (sampleKeeper 5 10000000000 false false).isPresent (Ctx.init 0)
      (MintCall.mk alice bob 100 "🪙").sender = false ∧
    IsInt64 (sampleKeeper 5 10000000000 false false).amount ∧
    (sampleKeeper 5 10000000000 false false).amount ≠ 0 ∧
    (sampleKeeper 5 10000000000 false false).TimeOk (MintCall.mk alice bob 100 "🪙").mintTime ∧
    ((sampleKeeper 5 10000000000 false false).call sampleLibs (Ctx.init 0)
      (MintCall.mk alice bob 100 "🪙")).1 = Ret.nil ∧
    ((sampleKeeper 5 10000000000 false false).getMining
        ((sampleKeeper 5 10000000000 false false).call sampleLibs (Ctx.init 0)
          (MintCall.mk alice bob 100 "🪙")).2 (MintCall.mk alice bob 100 "🪙").sender =
        some (Mining.mk (MintCall.mk alice bob 100 "🪙").sender
          (MintCall.mk alice bob 100 "🪙").mintTime
          (sampleKeeper 5 10000000000 false false).amount) ∧
      (sampleKeeper 5 10000000000 false false).callResults sampleLibs
        ((sampleKeeper 5 10000000000 false false).call sampleLibs (Ctx.init 0)
          (MintCall.mk alice bob 100 "🪙")).2
        [MintCall.mk alice bob 103 "🪙", MintCall.mk alice bob 106 "🪙",
          MintCall.mk alice bob 109 "🪙"] =
        [MintCall.mk alice bob 103 "🪙", MintCall.mk alice bob 106 "🪙",
          MintCall.mk alice bob 109 "🪙"].map (fun _ => Ret.err Error.ErrWithdrawTooOften) ∧
      (sampleKeeper 5 10000000000 false false).runCalls sampleLibs
        ((sampleKeeper 5 10000000000 false false).call sampleLibs (Ctx.init 0)
          (MintCall.mk alice bob 100 "🪙")).2
        [MintCall.mk alice bob 103 "🪙", MintCall.mk alice bob 106 "🪙",
          MintCall.mk alice bob 109 "🪙"] =
        ((sampleKeeper 5 10000000000 false false).call sampleLibs (Ctx.init 0)
          (MintCall.mk alice bob 100 "🪙")).2) :=
  ⟨sampleCodec_miningRoundTrip, by decide, by decide, by decide, by decide, by decide,
   by decide,
   Keeper.later_requests_rate_limited sampleLibs (sampleKeeper 5 10000000000 false false)
    (Ctx.init 0) (MintCall.mk alice bob 100 "🪙")
    [MintCall.mk alice bob 103 "🪙", MintCall.mk alice bob 106 "🪙",
      MintCall.mk alice bob 109 "🪙"]
    sampleCodec_miningRoundTrip (by decide) (by decide) (by decide) (by decide) (by decide)
    (by decide) (by decide)⟩

/-- C4 fails as stated: with a cooldown of 10 s and requests at 100, 109 and 118, every gap
between consecutive requests is 9 s, smaller than the cooldown, yet the third request
succeeds, because the refused request at 109 did not move `LastTime`, and 118 is not before
100 + 10. -/
theorem Keeper.later_requests_rate_limited_counterexample :
    (sampleKeeper 5 10000000000 false false).isPresent (Ctx.init 0) alice = false ∧
    ((109 : Int) - 100) * 1000000000 < (sampleKeeper 5 10000000000 false false).Limit ∧
    ((118 : Int) - 109) * 1000000000 < (sampleKeeper 5 10000000000 false false).Limit ∧
    (sampleKeeper 5 10000000000 false false).callResults sampleLibs (Ctx.init 0)
      [MintCall.mk alice bob 100 "🪙", MintCall.mk alice bob 109 "🪙",
        MintCall.mk alice bob 118 "🪙"] =
      [Ret.nil, Ret.err Error.ErrWithdrawTooOften, Ret.nil] := by
  decide

/-! ## C6 and C7 : failures after the record update -/

/-- C6, as the code has it. Past the stake-denom check and the rate-limit test of the code
(`tooOften` is false), with the coin built and `MintCoins` successful, an absent recipient makes `MintAndSend` return the wrapped
`ErrUnauthorized`; the calls made are `MintCoins` and `GetAccount` and no transfer, the world
is as `MintCoins` left it, the store is the one `setMining` produced, and, unless `setMining`
skipped the write (empty record address or new `int64` tally 0), the sender's record read back
has the new tally and `LastTime` equal to the request time. -/
theorem Keeper.MintAndSend_absent_receiver (lib : Libs) (k : Keeper W) (ctx : Ctx W)
    (sender receiver : AccAddress) (mintTime : Int) (denom : String) (before : Mining)
    (newCoin : Coin)
    (hd : denom ≠ k.StakingKeeper.BondDenom ctx.world)
    (hbefore : k.getMining ctx sender = some before)
    (hrl : k.tooOften ctx sender before mintTime = false)
    (hcoin : sdk.NewCoin lib denom (sdk.NewInt k.amount) = some newCoin)
    (hmint : (k.SupplyKeeper.MintCoins ctx.world (sdk.NewCoins [newCoin])).2 = none)
    (habsent : k.AccountKeeper.GetAccount
      (k.SupplyKeeper.MintCoins ctx.world (sdk.NewCoins [newCoin])).1 receiver = false) :
    (k.MintAndSend lib ctx sender receiver mintTime denom).1 =
        Ret.err (Error.Wrapf SdkRoot.ErrUnauthorized receiverAbsentFormat receiver) ∧
      (k.MintAndSend lib ctx sender receiver mintTime denom).2.calls =
        ctx.calls ++ [Call.MintCoins (sdk.NewCoins [newCoin]), Call.GetAccount receiver] ∧
      (k.MintAndSend lib ctx sender receiver mintTime denom).2.world =
        (k.SupplyKeeper.MintCoins ctx.world (sdk.NewCoins [newCoin])).1 ∧
      (k.MintAndSend lib ctx sender receiver mintTime denom).2.store =
        (k.setMining ctx sender
          (Mining.mk before.Minter mintTime (add64 before.Tally k.amount))).store ∧
      (k.cdc.MiningRoundTrip → before.Minter.Empty = false →
        add64 before.Tally k.amount ≠ 0 →
        k.getMining (k.MintAndSend lib ctx sender receiver mintTime denom).2 sender =
          some (Mining.mk before.Minter mintTime (add64 before.Tally k.amount))) := by
  have hstore := k.MintAndSend_admitted_store lib ctx sender receiver mintTime denom before
    newCoin hd hbefore hrl hcoin
  refine ⟨?_, ?_, ?_, hstore, ?_⟩
  · rw [k.MintAndSend_admitted lib ctx sender receiver mintTime denom before hd hbefore hrl,
      hcoin]
    simp [Keeper.setMining_world, hmint, habsent]
  · rw [k.MintAndSend_admitted lib ctx sender receiver mintTime denom before hd hbefore hrl,
      hcoin]
    simp [Keeper.setMining_world, Keeper.setMining_calls, hmint, habsent]
  · rw [k.MintAndSend_admitted lib ctx sender receiver mintTime denom before hd hbefore hrl,
      hcoin]
    simp [Keeper.setMining_world, hmint, habsent]
  · intro hcdc haddr htally
    rw [k.getMining_of_store_eq _ _ sender hstore]
    exact (k.getMining_setMining ctx sender
      (Mining.mk before.Minter mintTime (add64 before.Tally k.amount)) hcdc haddr htally).2

/-- C6, evaluated: the first mint of 5 units at time 100 to an address without account. -/
theorem Keeper.MintAndSend_absent_receiver_witness :
    ("🪙" ≠ (sampleKeeper 5 10000000000 false false).StakingKeeper.BondDenom
      (Ctx.init (0 : Int)).world) ∧
    (sampleKeeper 5 10000000000 false false).getMining (Ctx.init 0) alice =
      some (NewMining alice 0) ∧
    sdk.NewCoin sampleLibs "🪙" (sdk.NewInt (sampleKeeper 5 10000000000 false false).amount) =
      some (Coin.mk "🪙" 5) ∧
    ((sampleKeeper 5 10000000000 false false).MintAndSend sampleLibs (Ctx.init 0)
        alice nobody 100 "🪙").1 =
      Ret.err (Error.Wrapf SdkRoot.ErrUnauthorized receiverAbsentFormat nobody) ∧
    ((sampleKeeper 5 10000000000 false false).MintAndSend sampleLibs (Ctx.init 0)
        alice nobody 100 "🪙").2.calls =
      (Ctx.init (0 : Int)).calls ++
        [Call.MintCoins (sdk.NewCoins [Coin.mk "🪙" 5]), Call.GetAccount nobody] ∧
    (sampleKeeper 5 10000000000 false false).getMining
        ((sampleKeeper 5 10000000000 false false).MintAndSend sampleLibs (Ctx.init 0)
          alice nobody 100 "🪙").2 alice =
      some (Mining.mk (NewMining alice 0).Minter 100
        (add64 (NewMining alice 0).Tally (sampleKeeper 5 10000000000 false false).amount)) :=
  have h := Keeper.MintAndSend_absent_receiver sampleLibs
    (sampleKeeper 5 10000000000 false false) (Ctx.init 0) alice nobody 100 "🪙"
    (NewMining alice 0) (Coin.mk "🪙" 5) (by decide) (by decide) (by decide) (by decide)
    (by decide) (by decide)
  ⟨by decide, by decide, by decide, h.1, h.2.1,
   h.2.2.2.2 sampleCodec_miningRoundTrip (by decide) (by decide)⟩

/-- C6 fails as stated when the configured amount is 0: the call at time 100 to an address
without account fails with the wrapped `ErrUnauthorized` after `MintCoins` succeeded, and
the record read back for the sender is the zero-value record, whose `LastTime` is 0, not
the request time. -/
theorem Keeper.MintAndSend_absent_receiver_counterexample :
    ((sampleKeeper 0 10000000000 false false).MintAndSend sampleLibs (Ctx.init 0)
        alice nobody 100 "🪙").1 =
      Ret.err (Error.Wrapf SdkRoot.ErrUnauthorized receiverAbsentFormat nobody) ∧
    ((sampleKeeper 0 10000000000 false false).MintAndSend sampleLibs (Ctx.init 0)
        alice nobody 100 "🪙").2.calls =
      [Call.MintCoins (sdk.NewCoins [Coin.mk "🪙" 0]), Call.GetAccount nobody] ∧
    (sampleKeeper 0 10000000000 false false).isPresent
      ((sampleKeeper 0 10000000000 false false).MintAndSend sampleLibs (Ctx.init 0)
        alice nobody 100 "🪙").2 alice = false ∧
    (sampleKeeper 0 10000000000 false false).getMining
      ((sampleKeeper 0 10000000000 false false).MintAndSend sampleLibs (Ctx.init 0)
        alice nobody 100 "🪙").2 alice = some (Mining.mk alice 0 0) ∧
    ¬ ((Mining.mk alice 0 0).LastTime = 100) := by
  decide

/-- C7. Past the stake-denom check and the rate-limit test of the code (`tooOften` is false)
and with the coin built: if `MintCoins`
returns an error `e`, `MintAndSend` returns `e`, the only collaborator call is `MintCoins`
(no account lookup, no transfer); if `MintCoins` succeeds, the recipient exists and
`SendCoinsFromModuleToAccount` returns an error `e`, `MintAndSend` returns `e`. In both cases
the store left is exactly the one `setMining` produced before the Supply calls, so a record
update that was written is read back afterwards. -/
theorem Keeper.MintAndSend_supply_error (lib : Libs) (k : Keeper W) (ctx : Ctx W)
    (sender receiver : AccAddress) (mintTime : Int) (denom : String) (before : Mining)
    (newCoin : Coin)
    (hd : denom ≠ k.StakingKeeper.BondDenom ctx.world)
    (hbefore : k.getMining ctx sender = some before)
    (hrl : k.tooOften ctx sender before mintTime = false)
    (hcoin : sdk.NewCoin lib denom (sdk.NewInt k.amount) = some newCoin) :
    (∀ e, (k.SupplyKeeper.MintCoins ctx.world (sdk.NewCoins [newCoin])).2 = some e →
      (k.MintAndSend lib ctx sender receiver mintTime denom).1 = Ret.err (Error.Supply e) ∧
      (k.MintAndSend lib ctx sender receiver mintTime denom).2.calls =
        ctx.calls ++ [Call.MintCoins (sdk.NewCoins [newCoin])]) ∧
    (∀ e, (k.SupplyKeeper.MintCoins ctx.world (sdk.NewCoins [newCoin])).2 = none →
      k.AccountKeeper.GetAccount
        (k.SupplyKeeper.MintCoins ctx.world (sdk.NewCoins [newCoin])).1 receiver = true →
      (k.SupplyKeeper.SendCoinsFromModuleToAccount
        (k.SupplyKeeper.MintCoins ctx.world (sdk.NewCoins [newCoin])).1 receiver
        (sdk.NewCoins [newCoin])).2 = some e →
      (k.MintAndSend lib ctx sender receiver mintTime denom).1 = Ret.err (Error.Supply e)) ∧
    (k.MintAndSend lib ctx sender receiver mintTime denom).2.store =
      (k.setMining ctx sender
        (Mining.mk before.Minter mintTime (add64 before.Tally k.amount))).store ∧
    (k.cdc.MiningRoundTrip → before.Minter.Empty = false →
      add64 before.Tally k.amount ≠ 0 →
      k.getMining (k.MintAndSend lib ctx sender receiver mintTime denom).2 sender =
        some (Mining.mk before.Minter mintTime (add64 before.Tally k.amount))) := by
  have hstore := k.MintAndSend_admitted_store lib ctx sender receiver mintTime denom before
    newCoin hd hbefore hrl hcoin
  refine ⟨?_, ?_, hstore, ?_⟩
  · intro e hmint
    rw [k.MintAndSend_admitted lib ctx sender receiver mintTime denom before hd hbefore hrl,
      hcoin]
    simp [Keeper.setMining_world, Keeper.setMining_calls, hmint]
  · intro e hmint hacc hsend
    rw [k.MintAndSend_admitted lib ctx sender receiver mintTime denom before hd hbefore hrl,
      hcoin]
    simp [Keeper.setMining_world, hmint, hacc, hsend]
  · intro hcdc haddr htally
    rw [k.getMining_of_store_eq _ _ sender hstore]
    exact (k.getMining_setMining ctx sender
      (Mining.mk before.Minter mintTime (add64 before.Tally k.amount)) hcdc haddr htally).2

/-- C7, evaluated: a keeper whose `MintCoins` fails, and a keeper whose transfer fails; in
both the record (tally 5, time 100) stays written. -/
theorem Keeper.MintAndSend_supply_error_witness :
    ("🪙" ≠ (sampleKeeper 5 10000000000 true false).StakingKeeper.BondDenom
      (Ctx.init (0 : Int)).world) ∧
    ((sampleKeeper 5 10000000000 true false).MintAndSend sampleLibs (Ctx.init 0)
        alice bob 100 "🪙").1 = Ret.err (Error.Supply (SupplyError.mk 1)) ∧
    ((sampleKeeper 5 10000000000 true false).MintAndSend sampleLibs (Ctx.init 0)
        alice bob 100 "🪙").2.calls =
      (Ctx.init (0 : Int)).calls ++ [Call.MintCoins (sdk.NewCoins [Coin.mk "🪙" 5])] ∧
    (sampleKeeper 5 10000000000 true false).getMining
        ((sampleKeeper 5 10000000000 true false).MintAndSend sampleLibs (Ctx.init 0)
          alice bob 100 "🪙").2 alice =
      some (Mining.mk (NewMining alice 0).Minter 100
        (add64 (NewMining alice 0).Tally (sampleKeeper 5 10000000000 true false).amount)) ∧
    ((sampleKeeper 5 10000000000 false true).MintAndSend sampleLibs (Ctx.init 0)
        alice bob 100 "🪙").1 = Ret.err (Error.Supply (SupplyError.mk 2)) ∧
    (sampleKeeper 5 10000000000 false true).getMining
        ((sampleKeeper 5 10000000000 false true).MintAndSend sampleLibs (Ctx.init 0)
          alice bob 100 "🪙").2 alice =
      some (Mining.mk (NewMining alice 0).Minter 100
        (add64 (NewMining alice 0).Tally (sampleKeeper 5 10000000000 false true).amount)) :=
  have h1 := Keeper.MintAndSend_supply_error sampleLibs
    (sampleKeeper 5 10000000000 true false) (Ctx.init 0) alice bob 100 "🪙"
    (NewMining alice 0) (Coin.mk "🪙" 5) (by decide) (by decide) (by decide) (by decide)
  have h2 := Keeper.MintAndSend_supply_error sampleLibs
    (sampleKeeper 5 10000000000 false true) (Ctx.init 0) alice bob 100 "🪙"
    (NewMining alice 0) (Coin.mk "🪙" 5) (by decide) (by decide) (by decide) (by decide)
  ⟨by decide, (h1.1 (SupplyError.mk 1) (by decide)).1, (h1.1 (SupplyError.mk 1) (by decide)).2,
   h1.2.2.2 sampleCodec_miningRoundTrip (by decide) (by decide),
   h2.2.1 (SupplyError.mk 2) (by decide) (by decide) (by decide),
   h2.2.2.2 sampleCodec_miningRoundTrip (by decide) (by decide)⟩

/-! ## C8 and C9 : the faucet key registry -/

/-- What `SetFaucetKey` does when the encoding of the descriptor is not nil. -/
theorem Keeper.SetFaucetKey_some (k : Keeper W) (ctx : Ctx W) (armor : String) (bz : Bytes)
    (h : k.cdc.MustMarshalFaucetKey (NewFaucetKey armor) = some bz) :
    k.SetFaucetKey ctx armor =
      (Ret.nil, Ctx.mk (ctx.store.put FaucetStoreKey bz) ctx.world ctx.calls) := by
  simp [Keeper.SetFaucetKey, h, KVStore.Set]

/-- What `SetFaucetKey` does when the encoding of the descriptor is nil. -/
theorem Keeper.SetFaucetKey_none (k : Keeper W) (ctx : Ctx W) (armor : String)
    (h : k.cdc.MustMarshalFaucetKey (NewFaucetKey armor) = none) :
    k.SetFaucetKey ctx armor = (Ret.panicked, ctx) := by
  simp [Keeper.SetFaucetKey, h, KVStore.Set]

/-- A `SetFaucetKey` that returns has stored an entry under the reserved key. -/
theorem Keeper.SetFaucetKey_nil_has (k : Keeper W) (ctx : Ctx W) (armor : String)
    (h : (k.SetFaucetKey ctx armor).1 = Ret.nil) :
    k.HasFaucetKey (k.SetFaucetKey ctx armor).2 = true := by
  cases hm : k.cdc.MustMarshalFaucetKey (NewFaucetKey armor) with
  | none =>
    rw [k.SetFaucetKey_none ctx armor hm] at h
    exact absurd h (by simp)
  | some bz =>
    rw [k.SetFaucetKey_some ctx armor bz hm]
    exact KVStore.has_put_same _ _ _

/-- C8, as the code has it. With a codec that round-trips faucet keys, on every store and for
non-empty key materials `A` and `B`: `SetFaucetKey A` returns and `GetFaucetKey` then gives the
descriptor with material exactly `A`; a further `SetFaucetKey B` returns and `GetFaucetKey`
gives exactly `B`, the context being the same as if only `B` had been published (nothing of
`A` remains). -/
theorem Keeper.faucetKey_publish_fetch (k : Keeper W) (ctx : Ctx W) (A B : String)
    (hcdc : k.cdc.FaucetKeyRoundTrip) (hA : A ≠ "") (hB : B ≠ "") :
    (k.SetFaucetKey ctx A).1 = Ret.nil ∧
      k.GetFaucetKey (k.SetFaucetKey ctx A).2 = some (FaucetKey.mk A) ∧
      (k.SetFaucetKey (k.SetFaucetKey ctx A).2 B).1 = Ret.nil ∧
      k.GetFaucetKey (k.SetFaucetKey (k.SetFaucetKey ctx A).2 B).2 = some (FaucetKey.mk B) ∧
      (k.SetFaucetKey (k.SetFaucetKey ctx A).2 B).2 = (k.SetFaucetKey ctx B).2 := by
  obtain ⟨bzA, hmA, hdA⟩ := hcdc (NewFaucetKey A) hA
  obtain ⟨bzB, hmB, hdB⟩ := hcdc (NewFaucetKey B) hB
  rw [k.SetFaucetKey_some ctx A bzA hmA, k.SetFaucetKey_some _ B bzB hmB,
    k.SetFaucetKey_some ctx B bzB hmB]
  refine ⟨rfl, ?_, rfl, ?_, ?_⟩
  · simp only [Keeper.GetFaucetKey, KVStore.get_put_same]
    exact hdA
  · simp only [Keeper.GetFaucetKey, KVStore.get_put_same]
    exact hdB
  · simp only [KVStore.put_put_same]

/-- C8, evaluated: scenario 5 of the specification, on a store that already holds a mining
record. -/
theorem Keeper.faucetKey_publish_fetch_witness :
    (sampleKeeper 5 10000000000 false false).cdc.FaucetKeyRoundTrip ∧
    "ARMOR1" ≠ "" ∧ "ARMOR2" ≠ "" ∧
    (sampleKeeper 5 10000000000 false false).GetFaucetKey
      ((sampleKeeper 5 10000000000 false false).SetFaucetKey
        ((sampleKeeper 5 10000000000 false false).call sampleLibs (Ctx.init 0)
          (MintCall.mk alice bob 100 "🪙")).2 "ARMOR1").2 = some (FaucetKey.mk "ARMOR1") ∧
    (sampleKeeper 5 10000000000 false false).GetFaucetKey
      ((sampleKeeper 5 10000000000 false false).SetFaucetKey
        ((sampleKeeper 5 10000000000 false false).SetFaucetKey
          ((sampleKeeper 5 10000000000 false false).call sampleLibs (Ctx.init 0)
            (MintCall.mk alice bob 100 "🪙")).2 "ARMOR1").2 "ARMOR2").2 =
      some (FaucetKey.mk "ARMOR2") :=
  have h := Keeper.faucetKey_publish_fetch (sampleKeeper 5 10000000000 false false)
    ((sampleKeeper 5 10000000000 false false).call sampleLibs (Ctx.init 0)
      (MintCall.mk alice bob 100 "🪙")).2 "ARMOR1" "ARMOR2" sampleCodec_faucetKeyRoundTrip
    (by decide) (by decide)
  ⟨sampleCodec_faucetKeyRoundTrip, by decide, by decide, h.2.1, h.2.2.2.1⟩

/-- C8 fails as stated for the empty key material: the encoding of the descriptor with an
empty armor is nil, `store.Set` panics on it, and after `SetFaucetKey "ARMOR2"` followed by
`SetFaucetKey ""` the descriptor fetched is still "ARMOR2", not the empty one. -/
theorem Keeper.faucetKey_publish_fetch_counterexample :
    ((sampleKeeper 5 10000000000 false false).SetFaucetKey
      ((sampleKeeper 5 10000000000 false false).SetFaucetKey (Ctx.init 0) "ARMOR2").2 "").1 =
      Ret.panicked ∧
    (sampleKeeper 5 10000000000 false false).GetFaucetKey
      ((sampleKeeper 5 10000000000 false false).SetFaucetKey
        ((sampleKeeper 5 10000000000 false false).SetFaucetKey (Ctx.init 0) "ARMOR2").2 "").2 =
      some (FaucetKey.mk "ARMOR2") ∧
    FaucetKey.mk "ARMOR2" ≠ FaucetKey.mk "" := by
  decide

/-- A `MintAndSend` call writes, if at all, under the key of its sender: any other key is
present after the call exactly when it was present before. -/
theorem Keeper.call_has_other (lib : Libs) (k : Keeper W) (ctx : Ctx W) (c : MintCall)
    (key : Bytes) (h : c.sender.Bytes ≠ key) :
    (k.call lib ctx c).2.store.Has key = ctx.store.Has key := by
  unfold Keeper.call
  rcases k.MintAndSend_cases lib ctx c.sender c.receiver c.mintTime c.denom with h1 | h1
  · rw [h1.1]
  · obtain ⟨mining, _, _, _, _, _, hstore⟩ := h1
    rw [hstore]
    rw [Keeper.setMining_eq]
    split_ifs
    · rfl
    · rfl
    · exact KVStore.has_put_other _ _ _ _ (Ne.symm h)

theorem Keeper.runCalls_has_other (lib : Libs) (k : Keeper W) (key : Bytes)
    (cs : List MintCall) :
    ∀ ctx : Ctx W, (∀ c ∈ cs, c.sender.Bytes ≠ key) →
      (k.runCalls lib ctx cs).store.Has key = ctx.store.Has key := by
  induction cs with
  | nil =>
    intro ctx _
    rfl
  | cons c cs ih =>
    intro ctx h
    show (k.runCalls lib (k.call lib ctx c).2 cs).store.Has key = ctx.store.Has key
    rw [ih _ (fun c1 hc1 => h c1 (List.mem_cons_of_mem c hc1))]
    exact k.call_has_other lib ctx c key (h c (List.mem_cons_self c cs))

theorem KVStore.get_of_has_false (s : KVStore) (key : Bytes) (h : s.Has key = false) :
    s.Get key = [] := by
  unfold KVStore.Has at h
  unfold KVStore.Get
  cases hl : s.entries.lookup key with
  | none => rfl
  | some v => simp [hl] at h

/-- C9, as the code has it. On a store reached from the empty store by `MintAndSend` calls
only (no publish), none of them with the reserved key `FaucetStoreKey` as sender address,
`HasFaucetKey` is false and `GetFaucetKey` returns, without panicking, the descriptor with
empty `Armor` (the codec decoding the absent value to the zero-value descriptor); after any
`SetFaucetKey` that returns, on any store, `HasFaucetKey` is true; and `SetFaucetKey` returns
for every non-empty armor when the codec round-trips faucet keys. -/
theorem Keeper.faucetKey_never_published (lib : Libs) (k : Keeper W) (w : W)
    (cs : List MintCall)
    (hnil : k.cdc.NilIsZeroFaucetKey)
    (hsenders : ∀ c ∈ cs, c.sender.Bytes ≠ FaucetStoreKey) :
    k.HasFaucetKey (k.runCalls lib (Ctx.init w) cs) = false ∧
      k.GetFaucetKey (k.runCalls lib (Ctx.init w) cs) = some (FaucetKey.mk "") ∧
      (∀ (ctx : Ctx W) (armor : String), (k.SetFaucetKey ctx armor).1 = Ret.nil →
        k.HasFaucetKey (k.SetFaucetKey ctx armor).2 = true) ∧
      (∀ (ctx : Ctx W) (armor : String), k.cdc.FaucetKeyRoundTrip → armor ≠ "" →
        (k.SetFaucetKey ctx armor).1 = Ret.nil) := by
  have hhas : (k.runCalls lib (Ctx.init w) cs).store.Has FaucetStoreKey = false := by
    rw [k.runCalls_has_other lib FaucetStoreKey cs (Ctx.init w) hsenders]
    rfl
  refine ⟨hhas, ?_, ?_, ?_⟩
  · unfold Keeper.GetFaucetKey
    rw [KVStore.get_of_has_false _ _ hhas]
    exact hnil
  · intro ctx armor h
    exact k.SetFaucetKey_nil_has ctx armor h
  · intro ctx armor hcdc harmor
    obtain ⟨bz, hm, _⟩ := hcdc (NewFaucetKey armor) harmor
    rw [k.SetFaucetKey_some ctx armor bz hm]

/-- C9, evaluated: after two mints and one refused request, no key is published; a publish of
"ARMOR1" then returns and the key is there. -/
theorem Keeper.faucetKey_never_published_witness :
    (sampleKeeper 5 10000000000 false false).cdc.NilIsZeroFaucetKey ∧
    (∀ c ∈ [MintCall.mk alice bob 100 "🪙", MintCall.mk bob alice 101 "🪙",
        MintCall.mk alice bob 102 "🪙"], c.sender.Bytes ≠ FaucetStoreKey) ∧
    (sampleKeeper 5 10000000000 false false).HasFaucetKey
      ((sampleKeeper 5 10000000000 false false).runCalls sampleLibs (Ctx.init 0)
        [MintCall.mk alice bob 100 "🪙", MintCall.mk bob alice 101 "🪙",
          MintCall.mk alice bob 102 "🪙"]) = false ∧
    (sampleKeeper 5 10000000000 false false).GetFaucetKey
      ((sampleKeeper 5 10000000000 false false).runCalls sampleLibs (Ctx.init 0)
        [MintCall.mk alice bob 100 "🪙", MintCall.mk bob alice 101 "🪙",
          MintCall.mk alice bob 102 "🪙"]) = some (FaucetKey.mk "") ∧
    (sampleKeeper 5 10000000000 false false).HasFaucetKey
      ((sampleKeeper 5 10000000000 false false).SetFaucetKey (Ctx.init 0) "ARMOR1").2 = true :=
  have h := Keeper.faucetKey_never_published sampleLibs (sampleKeeper 5 10000000000 false false)
    0 [MintCall.mk alice bob 100 "🪙", MintCall.mk bob alice 101 "🪙",
      MintCall.mk alice bob 102 "🪙"] sampleCodec_nilIsZero (by decide)
  ⟨sampleCodec_nilIsZero, by decide, h.1, h.2.1,
   h.2.2.1 (Ctx.init 0) "ARMOR1"
     (h.2.2.2 (Ctx.init 0) "ARMOR1" sampleCodec_faucetKeyRoundTrip (by decide))⟩

/-- C9 fails as stated: on the empty store, with no publish ever performed, one
`MintAndSend` call whose sender address is the 21 bytes of "DefaultFaucetStoreKey" writes
the sender's mining record under the reserved key, and `HasFaucetKey` is true afterwards. -/
theorem Keeper.faucetKey_never_published_counterexample :
    (sampleKeeper 5 10000000000 false false).HasFaucetKey (Ctx.init 0) = false ∧
    ((sampleKeeper 5 10000000000 false false).MintAndSend sampleLibs (Ctx.init 0)
      (AccAddress.mk FaucetStoreKey) bob 100 "🪙").1 = Ret.nil ∧
    (sampleKeeper 5 10000000000 false false).HasFaucetKey
      ((sampleKeeper 5 10000000000 false false).MintAndSend sampleLibs (Ctx.init 0)
        (AccAddress.mk FaucetStoreKey) bob 100 "🪙").2 = true := by
  decide

/-! ## C10 : validation of a mint message -/

/-- C10, as the code has it. `MsgMint.ValidateBasic` returns nil exactly when the minter is
non-empty, the sender is non-empty, the sender differs from the minter and the slice that
`emoji.FindAll` returns for the denom has exactly one element, that is, the denom holds
exactly one distinct emoji, however often; it returns the wrapped `ErrInvalidAddress` when
either address is empty, and `ErrNoEmoji` when both are non-empty and distinct and the number
of distinct emoji found is not one. -/
theorem MsgMint.ValidateBasic_spec (lib : Libs) (msg : MsgMint) :
    (msg.ValidateBasic lib = none ↔
      (msg.Minter.Empty = false ∧ msg.Sender.Empty = false ∧ msg.Sender ≠ msg.Minter ∧
        (lib.FindAll msg.Denom).length = 1)) ∧
    ((msg.Minter.Empty = true ∨ msg.Sender.Empty = true) →
      msg.ValidateBasic lib = some (Error.Wrap SdkRoot.ErrInvalidAddress "")) ∧
    (msg.Minter.Empty = false → msg.Sender.Empty = false → msg.Sender ≠ msg.Minter →
      (lib.FindAll msg.Denom).length ≠ 1 → msg.ValidateBasic lib = some Error.ErrNoEmoji) := by
  have heq : msg.Minter.Empty = false → msg.Sender.Empty = false →
      (msg.Sender.Equals msg.Minter = true ↔ msg.Sender = msg.Minter) := by
    intro h1 h2
    unfold AccAddress.Equals
    simp only [h1, h2, Bool.and_self, Bool.false_eq_true, if_false, decide_eq_true_eq]
    constructor
    · exact AccAddress.eq_of_bytes_eq _ _
    · intro h
      rw [h]
  unfold MsgMint.ValidateBasic
  cases hM : msg.Minter.Empty
  · cases hS : msg.Sender.Empty
    · by_cases hE : msg.Sender = msg.Minter
      · have hE2 := (heq hM hS).mpr hE
        simp only [hE2]
        simp [hE]
      · have hE2 : msg.Sender.Equals msg.Minter = false := by
          rw [← Bool.not_eq_true]
          exact fun h => hE ((heq hM hS).mp h)
        by_cases hn : (lib.FindAll msg.Denom).length = 1
        · simp [hE2, hE, hn]
        · simp [hE2, hE, hn]
    · simp
  · simp

/-- C10, evaluated on four requests: a valid one, an empty minter, an empty sender and a denom
without emoji. -/
theorem MsgMint.ValidateBasic_spec_witness :
    (NewMsgMint alice bob "🪙").ValidateBasic sampleLibs = none ∧
    (NewMsgMint alice (AccAddress.mk []) "🪙").ValidateBasic sampleLibs =
      some (Error.Wrap SdkRoot.ErrInvalidAddress "") ∧
    (NewMsgMint (AccAddress.mk []) bob "🪙").ValidateBasic sampleLibs =
      some (Error.Wrap SdkRoot.ErrInvalidAddress "") ∧
    (NewMsgMint alice bob "stake").ValidateBasic sampleLibs = some Error.ErrNoEmoji :=
  ⟨((MsgMint.ValidateBasic_spec sampleLibs (NewMsgMint alice bob "🪙")).1).mpr (by decide),
   (MsgMint.ValidateBasic_spec sampleLibs (NewMsgMint alice (AccAddress.mk []) "🪙")).2.1
     (Or.inl (by decide)),
   (MsgMint.ValidateBasic_spec sampleLibs (NewMsgMint (AccAddress.mk []) bob "🪙")).2.1
     (Or.inr (by decide)),
   (MsgMint.ValidateBasic_spec sampleLibs (NewMsgMint alice bob "stake")).2.2
     (by decide) (by decide) (by decide) (by decide)⟩

/-- C10 fails as stated for a denom that repeats one emoji: in "😀😀" there are two matches,
`emoji.FindAll` returns one result with two occurrences, and `ValidateBasic` accepts the
request although the number of matches is more than one. -/
theorem MsgMint.ValidateBasic_spec_counterexample :
    sampleLibs.FindAll "😀😀" = [SearchResult.mk "😀" 2] ∧
    matchCount (sampleLibs.FindAll "😀😀") = 2 ∧
    (NewMsgMint alice bob "😀😀").Minter.Empty = false ∧
    (NewMsgMint alice bob "😀😀").Sender.Empty = false ∧
    (NewMsgMint alice bob "😀😀").Sender ≠ (NewMsgMint alice bob "😀😀").Minter ∧
    (NewMsgMint alice bob "😀😀").ValidateBasic sampleLibs = none := by
  decide

/-! ## C11 and C12 : validation, continued -/

/-- C11, as the code has it. A mint request whose sender is non-empty and equal to the
minter is rejected by `MsgMint.ValidateBasic` for every denom, with `ErrInvalidAddress` wrapped
with the description "Can't mint to yourself": the same root error as for an empty address,
told apart only by the description, and different from `ErrNoEmoji`. The function takes the
message and nothing else, so no store is read. -/
theorem MsgMint.ValidateBasic_self_mint (lib : Libs) (msg : MsgMint)
    (hne : msg.Sender.Empty = false) (hsame : msg.Sender = msg.Minter) :
    msg.ValidateBasic lib =
        some (Error.Wrap SdkRoot.ErrInvalidAddress "Can't mint to yourself") ∧
      msg.ValidateBasic lib ≠ some Error.ErrNoEmoji ∧
      msg.ValidateBasic lib ≠ some (Error.Wrap SdkRoot.ErrInvalidAddress "") ∧
      msg.ValidateBasic lib ≠ none := by
  have hm : msg.Minter.Empty = false := by
    rw [← hsame]
    exact hne
  have heq : msg.Sender.Equals msg.Minter = true := by
    rw [← hsame]
    simp [AccAddress.Equals]
  have h : msg.ValidateBasic lib =
      some (Error.Wrap SdkRoot.ErrInvalidAddress "Can't mint to yourself") := by
    unfold MsgMint.ValidateBasic
    simp only [hm, hne, heq, Bool.false_eq_true, if_false, if_true]
  rw [h]
  refine ⟨rfl, ?_, ?_, ?_⟩
  · simp
  · simp
  · simp

/-- C11, evaluated on a request of `alice` to herself. -/
theorem MsgMint.ValidateBasic_self_mint_witness :
    (NewMsgMint alice alice "🪙").Sender.Empty = false ∧
    (NewMsgMint alice alice "🪙").Sender = (NewMsgMint alice alice "🪙").Minter ∧
    (NewMsgMint alice alice "🪙").ValidateBasic sampleLibs =
      some (Error.Wrap SdkRoot.ErrInvalidAddress "Can't mint to yourself") :=
  ⟨by decide, by decide,
   (MsgMint.ValidateBasic_self_mint sampleLibs (NewMsgMint alice alice "🪙") (by decide)
    (by decide)).1⟩

/-- C11 fails as stated: the error for a request of `alice` to herself is a wrapped
`ErrInvalidAddress`, as is the error for a request with an empty minter; there is no error
type of its own for a self-mint. -/
theorem MsgMint.ValidateBasic_self_mint_counterexample :
    (∃ description, (NewMsgMint alice alice "🪙").ValidateBasic sampleLibs =
      some (Error.Wrap SdkRoot.ErrInvalidAddress description)) ∧
    (∃ description, (NewMsgMint alice (AccAddress.mk []) "🪙").ValidateBasic sampleLibs =
      some (Error.Wrap SdkRoot.ErrInvalidAddress description)) :=
  ⟨⟨"Can't mint to yourself", by decide⟩, ⟨"", by decide⟩⟩

theorem utf8ByteSize_eq_zero_iff (s : String) : s.utf8ByteSize = 0 ↔ s = "" := by
  constructor
  · intro h
    cases s with
    | mk cs =>
      cases cs with
      | nil => rfl
      | cons c cs =>
        simp [String.utf8ByteSize, String.utf8ByteSize.go] at h
        have := Char.utf8Size_pos c
        omega
  · intro h
    subst h
    rfl

/-- C12. `MsgFaucetKey.ValidateBasic` returns the wrapped `ErrInvalidAddress` when the sender
is empty, whatever the armor; otherwise `ErrFaucetKeyEmpty` when the armor has length zero
(it is the empty string); and nil in every other case. -/
theorem MsgFaucetKey.ValidateBasic_key_msg (msg : MsgFaucetKey) :
    (msg.Sender.Empty = true →
      msg.ValidateBasic = some (Error.Wrap SdkRoot.ErrInvalidAddress "")) ∧
    (msg.Sender.Empty = false → msg.Armor.utf8ByteSize = 0 →
      msg.ValidateBasic = some Error.ErrFaucetKeyEmpty) ∧
    (msg.Sender.Empty = false → msg.Armor.utf8ByteSize ≠ 0 → msg.ValidateBasic = none) ∧
    (msg.Armor.utf8ByteSize = 0 ↔ msg.Armor = "") := by
  refine ⟨?_, ?_, ?_, utf8ByteSize_eq_zero_iff msg.Armor⟩
  · intro h
    simp [MsgFaucetKey.ValidateBasic, h]
  · intro h1 h2
    simp [MsgFaucetKey.ValidateBasic, h1, h2]
  · intro h1 h2
    simp [MsgFaucetKey.ValidateBasic, h1, h2]

/-- C12, evaluated on three requests: an empty sender with a non-empty armor, an empty armor
and a valid request. -/
theorem MsgFaucetKey.ValidateBasic_key_msg_witness :
    (NewMsgFaucetKey (AccAddress.mk []) "ARMOR1").ValidateBasic =
      some (Error.Wrap SdkRoot.ErrInvalidAddress "") ∧
    (NewMsgFaucetKey alice "").ValidateBasic = some Error.ErrFaucetKeyEmpty ∧
    (NewMsgFaucetKey alice "ARMOR1").ValidateBasic = none :=
  ⟨(MsgFaucetKey.ValidateBasic_key_msg (NewMsgFaucetKey (AccAddress.mk []) "ARMOR1")).1
     (by decide),
   (MsgFaucetKey.ValidateBasic_key_msg (NewMsgFaucetKey alice "")).2.1 (by decide) (by decide),
   (MsgFaucetKey.ValidateBasic_key_msg (NewMsgFaucetKey alice "ARMOR1")).2.2.1 (by decide)
     (by decide)⟩

/-! ## C13 : the mining record store -/

theorem Keeper.getMining_absent (k : Keeper W) (ctx : Ctx W) (a : AccAddress)
    (h : k.isPresent ctx a = false) : k.getMining ctx a = some (NewMining a 0) := by
  simp [Keeper.getMining, h]

/-- C13. `setMining` returns the context unchanged when the record's tally is 0 or its
address is empty. Otherwise it stores the record under the key `minter` it is called with
(the sender; the record's own address for every record `getMining` made), so that, with a
codec that round-trips records, the key is present afterwards and `getMining` returns exactly
that record. On an address with no persisted record `getMining` returns the zero-value record
of that address, tally 0 and `LastTime` 0. -/
theorem Keeper.setMining_spec (k : Keeper W) (ctx : Ctx W) (minter : AccAddress)
    (mining : Mining) :
    ((mining.Tally = 0 ∨ mining.Minter.Empty = true) → k.setMining ctx minter mining = ctx) ∧
    (mining.Tally ≠ 0 → mining.Minter.Empty = false → k.cdc.MiningRoundTrip →
      k.isPresent (k.setMining ctx minter mining) minter = true ∧
      k.getMining (k.setMining ctx minter mining) minter = some mining) ∧
    (∀ a : AccAddress, k.isPresent ctx a = false →
      k.getMining ctx a = some (Mining.mk a 0 0)) := by
  refine ⟨?_, ?_, ?_⟩
  · intro h
    unfold Keeper.setMining
    rcases h with h | h
    · by_cases he : mining.Minter.Empty = true
      · simp [he]
      · simp [he, h]
    · simp [h]
  · intro ht ha hcdc
    exact k.getMining_setMining ctx minter mining hcdc ha ht
  · intro a ha
    exact k.getMining_absent ctx a ha

/-- C13, evaluated: a record with tally 0 is not stored, a record of `alice` with tally 7 is
stored under her address and read back, and `bob`, who has no record, reads as zero. -/
theorem Keeper.setMining_spec_witness :
    (sampleKeeper 5 10000000000 false false).setMining (Ctx.init 0) alice
      (Mining.mk alice 100 0) = Ctx.init 0 ∧
    ((sampleKeeper 5 10000000000 false false).isPresent
        ((sampleKeeper 5 10000000000 false false).setMining (Ctx.init 0) alice
          (Mining.mk alice 100 7)) alice = true ∧
      (sampleKeeper 5 10000000000 false false).getMining
        ((sampleKeeper 5 10000000000 false false).setMining (Ctx.init 0) alice
          (Mining.mk alice 100 7)) alice = some (Mining.mk alice 100 7)) ∧
    (sampleKeeper 5 10000000000 false false).getMining
      ((sampleKeeper 5 10000000000 false false).setMining (Ctx.init 0) alice
        (Mining.mk alice 100 7)) bob = some (Mining.mk bob 0 0) :=
  ⟨(Keeper.setMining_spec (sampleKeeper 5 10000000000 false false) (Ctx.init 0) alice
      (Mining.mk alice 100 0)).1 (Or.inl rfl),
   (Keeper.setMining_spec (sampleKeeper 5 10000000000 false false) (Ctx.init 0) alice
      (Mining.mk alice 100 7)).2.1 (by decide) (by decide) sampleCodec_miningRoundTrip,
   (Keeper.setMining_spec (sampleKeeper 5 10000000000 false false)
      ((sampleKeeper 5 10000000000 false false).setMining (Ctx.init 0) alice
        (Mining.mk alice 100 7)) alice (Mining.mk alice 100 7)).2.2 bob (by decide)⟩

/-! ## C19 and C18 : what an operation leaves alone -/

/-- A `MintAndSend` call leaves the value under every key other than its sender's. -/
theorem Keeper.MintAndSend_store_other (lib : Libs) (k : Keeper W) (ctx : Ctx W)
    (sender receiver : AccAddress) (mintTime : Int) (denom : String) (key : Bytes)
    (h : key ≠ sender.Bytes) :
    (k.MintAndSend lib ctx sender receiver mintTime denom).2.store.Has key =
        ctx.store.Has key ∧
      (k.MintAndSend lib ctx sender receiver mintTime denom).2.store.Get key =
        ctx.store.Get key := by
  rcases k.MintAndSend_cases lib ctx sender receiver mintTime denom with h1 | h1
  · rw [h1.1]
    exact ⟨rfl, rfl⟩
  · obtain ⟨mining, _, _, _, _, _, hstore⟩ := h1
    rw [hstore]
    rw [Keeper.setMining_eq]
    split_ifs
    · exact ⟨rfl, rfl⟩
    · exact ⟨rfl, rfl⟩
    · exact ⟨KVStore.has_put_other _ _ _ _ h, KVStore.get_put_other _ _ _ _ h⟩

/-- C19. A `MintAndSend` call by `sender`, whatever it returns and whoever the receiver is,
leaves the record of every other address `B` as it was: `isPresent` and `getMining` of `B`
give the same before and after. -/
theorem Keeper.MintAndSend_other_records (lib : Libs) (k : Keeper W) (ctx : Ctx W)
    (sender receiver B : AccAddress) (mintTime : Int) (denom : String)
    (hB : B ≠ sender) :
    k.isPresent (k.MintAndSend lib ctx sender receiver mintTime denom).2 B =
        k.isPresent ctx B ∧
      k.getMining (k.MintAndSend lib ctx sender receiver mintTime denom).2 B =
        k.getMining ctx B := by
  have hkey : B.Bytes ≠ sender.Bytes := fun h => hB (AccAddress.eq_of_bytes_eq _ _ h)
  have h := k.MintAndSend_store_other lib ctx sender receiver mintTime denom B.Bytes hkey
  unfold Keeper.getMining Keeper.isPresent
  rw [h.1, h.2]
  exact ⟨rfl, rfl⟩

/-- C19, evaluated: a mint of `alice` to `bob` changes neither the absent record of `bob`
nor, in a second call, his persisted one. -/
theorem Keeper.MintAndSend_other_records_witness :
    bob ≠ alice ∧
    (sampleKeeper 5 10000000000 false false).isPresent
      ((sampleKeeper 5 10000000000 false false).MintAndSend sampleLibs
        ((sampleKeeper 5 10000000000 false false).call sampleLibs (Ctx.init 0)
          (MintCall.mk bob alice 90 "🪙")).2 alice bob 100 "🪙").2 bob =
      (sampleKeeper 5 10000000000 false false).isPresent
        ((sampleKeeper 5 10000000000 false false).call sampleLibs (Ctx.init 0)
          (MintCall.mk bob alice 90 "🪙")).2 bob ∧
    (sampleKeeper 5 10000000000 false false).getMining
      ((sampleKeeper 5 10000000000 false false).MintAndSend sampleLibs
        ((sampleKeeper 5 10000000000 false false).call sampleLibs (Ctx.init 0)
          (MintCall.mk bob alice 90 "🪙")).2 alice bob 100 "🪙").2 bob =
      some (Mining.mk bob 90 5) :=
  have h := Keeper.MintAndSend_other_records sampleLibs
    (sampleKeeper 5 10000000000 false false)
    ((sampleKeeper 5 10000000000 false false).call sampleLibs (Ctx.init 0)
      (MintCall.mk bob alice 90 "🪙")).2 alice bob bob 100 "🪙" (by decide)
  ⟨by decide, h.1, h.2.trans (by decide)⟩

/-- C18, as the code has it. For every address whose bytes are not those of the reserved key
`FaucetStoreKey`, `SetFaucetKey` changes neither `isPresent` nor `getMining` of that address;
and a `MintAndSend` call of a sender whose bytes are not those of the reserved key changes
neither `GetFaucetKey` nor `HasFaucetKey`. -/
theorem Keeper.faucetKey_records_independent (lib : Libs) (k : Keeper W) (ctx : Ctx W) :
    (∀ (armor : String) (a : AccAddress), a.Bytes ≠ FaucetStoreKey →
      k.isPresent (k.SetFaucetKey ctx armor).2 a = k.isPresent ctx a ∧
      k.getMining (k.SetFaucetKey ctx armor).2 a = k.getMining ctx a) ∧
    (∀ (sender receiver : AccAddress) (mintTime : Int) (denom : String),
      sender.Bytes ≠ FaucetStoreKey →
      k.GetFaucetKey (k.MintAndSend lib ctx sender receiver mintTime denom).2 =
        k.GetFaucetKey ctx ∧
      k.HasFaucetKey (k.MintAndSend lib ctx sender receiver mintTime denom).2 =
        k.HasFaucetKey ctx) := by
  constructor
  · intro armor a ha
    cases hm : k.cdc.MustMarshalFaucetKey (NewFaucetKey armor) with
    | none =>
      rw [k.SetFaucetKey_none ctx armor hm]
      exact ⟨rfl, rfl⟩
    | some bz =>
      rw [k.SetFaucetKey_some ctx armor bz hm]
      unfold Keeper.getMining Keeper.isPresent
      simp [KVStore.has_put_other _ _ _ _ ha, KVStore.get_put_other _ _ _ _ ha]
  · intro sender receiver mintTime denom hs
    have h := k.MintAndSend_store_other lib ctx sender receiver mintTime denom FaucetStoreKey
      (Ne.symm hs)
    unfold Keeper.GetFaucetKey Keeper.HasFaucetKey
    rw [h.1, h.2]
    exact ⟨rfl, rfl⟩

/-- C18, evaluated: publishing after a mint of `alice` leaves her record, and a mint of
`alice` after a publish leaves the published key. -/
theorem Keeper.faucetKey_records_independent_witness :
    alice.Bytes ≠ FaucetStoreKey ∧
    (sampleKeeper 5 10000000000 false false).getMining
      ((sampleKeeper 5 10000000000 false false).SetFaucetKey
        ((sampleKeeper 5 10000000000 false false).call sampleLibs (Ctx.init 0)
          (MintCall.mk alice bob 100 "🪙")).2 "ARMOR1").2 alice =
      some (Mining.mk alice 100 5) ∧
    (sampleKeeper 5 10000000000 false false).GetFaucetKey
      ((sampleKeeper 5 10000000000 false false).MintAndSend sampleLibs
        ((sampleKeeper 5 10000000000 false false).SetFaucetKey (Ctx.init 0) "ARMOR1").2
        alice bob 100 "🪙").2 = some (FaucetKey.mk "ARMOR1") :=
  ⟨by decide,
   ((Keeper.faucetKey_records_independent sampleLibs (sampleKeeper 5 10000000000 false false)
      ((sampleKeeper 5 10000000000 false false).call sampleLibs (Ctx.init 0)
        (MintCall.mk alice bob 100 "🪙")).2).1 "ARMOR1" alice (by decide)).2.trans (by decide),
   ((Keeper.faucetKey_records_independent sampleLibs (sampleKeeper 5 10000000000 false false)
      ((sampleKeeper 5 10000000000 false false).SetFaucetKey (Ctx.init 0) "ARMOR1").2).2
      alice bob 100 "🪙" (by decide)).1.trans (by decide)⟩

/-- C18 fails as stated for the address whose bytes are those of "DefaultFaucetStoreKey":
on the empty store that address has no record, and after `SetFaucetKey "ARMOR1"` it is
present, because the descriptor is stored under the very key of that address. -/
theorem Keeper.faucetKey_records_independent_counterexample :
    (sampleKeeper 5 10000000000 false false).isPresent (Ctx.init 0) keyName = false ∧
    (sampleKeeper 5 10000000000 false false).isPresent
      ((sampleKeeper 5 10000000000 false false).SetFaucetKey (Ctx.init 0) "ARMOR1").2
      keyName = true := by
  decide

/-! ## C17 and C20 : the commands -/

/-- The refusals of the `init` command: with a key store that opened, an existing local key
gives the error "faucet existed", and an empty fetched descriptor gives the error
"Faucet key has not published"; in both cases `Import` is not called and the local key store
is as it was. -/
theorem GetCmdInitial.RunE_refusals {K : Type} (ModuleName : String) (env : InitEnv K)
    (kb : Keybase K) (keys : K) (hkb : env.NewKeyring = Except.ok kb) :
    (kb.Get keys ModuleName = true →
      GetCmdInitial.RunE ModuleName env keys =
        InitResult.mk (CmdRet.errorsNew "faucet existed") keys []) ∧
    (∀ res rkey, kb.Get keys ModuleName = false →
      env.QueryWithData ("custom/" ++ ModuleName ++ "/key") = Except.ok res →
      env.MustUnmarshalJSON res = some rkey → rkey.Armor.utf8ByteSize = 0 →
      GetCmdInitial.RunE ModuleName env keys =
        InitResult.mk (CmdRet.errorsNew "Faucet key has not published") keys []) := by
  constructor
  · intro hget
    simp [GetCmdInitial.RunE, hkb, hget]
  · intro res rkey hget hq hj hlen
    simp [GetCmdInitial.RunE, hkb, hget, hq, hj, hlen]

/-- The `init` command returns nil without calling `Import` whenever the query fails. -/
theorem GetCmdInitial.RunE_query_error {K : Type} (ModuleName : String) (env : InitEnv K)
    (kb : Keybase K) (keys : K) (e : Nat) (hkb : env.NewKeyring = Except.ok kb)
    (hget : kb.Get keys ModuleName = false)
    (hq : env.QueryWithData ("custom/" ++ ModuleName ++ "/key") = Except.error e) :
    GetCmdInitial.RunE ModuleName env keys = InitResult.mk CmdRet.nil keys [] := by
  simp [GetCmdInitial.RunE, hkb, hget, hq]

/-- C17, at the failing inputs. With no local key and a query that fails, the `init` command
returns nil (success) although `Import` was never called and the key store is still empty;
and with a published key whose import the key store refuses, it returns nil as well, the
error of `Import` being dropped and the key store still empty. -/
theorem GetCmdInitial.RunE_success_without_import :
    GetCmdInitial.RunE "faucet" (sampleInitEnv true (FaucetKey.mk "ARMOR1")) [] =
      InitResult.mk CmdRet.nil [] [] ∧
    (sampleKeybase.Import [] "faucet" "BAD").2 = some 3 ∧
    GetCmdInitial.RunE "faucet" (sampleInitEnv false (FaucetKey.mk "BAD")) [] =
      InitResult.mk CmdRet.nil [] [("faucet", "BAD")] := by
  decide

/-- C20. For every from-address and every denom argument, the `mint` command builds a message
whose sender and minter are both the from-address, `ValidateBasic` rejects it (an empty
address as such, a non-empty one as a mint to oneself), and the command returns that error:
it never ends in `GenerateOrBroadcastMsgs`. -/
theorem GetCmdMint.RunE_rejects (lib : Libs) (fromAddress : AccAddress) (denom : String)
    (rest : List String) :
    (NewMsgMint fromAddress fromAddress denom).ValidateBasic lib =
        some (Error.Wrap SdkRoot.ErrInvalidAddress
          (if fromAddress.Empty then "" else "Can't mint to yourself")) ∧
      GetCmdMint.RunE lib fromAddress (denom :: rest) =
        CmdRet.err (Error.Wrap SdkRoot.ErrInvalidAddress
          (if fromAddress.Empty then "" else "Can't mint to yourself")) ∧
      ∀ msgs, GetCmdMint.RunE lib fromAddress (denom :: rest) ≠
        CmdRet.GenerateOrBroadcastMsgs msgs := by
  have hv : (NewMsgMint fromAddress fromAddress denom).ValidateBasic lib =
      some (Error.Wrap SdkRoot.ErrInvalidAddress
        (if fromAddress.Empty then "" else "Can't mint to yourself")) := by
    cases he : fromAddress.Empty
    · have heq : fromAddress.Equals fromAddress = true := by
        simp [AccAddress.Equals]
      simp [MsgMint.ValidateBasic, NewMsgMint, he, heq]
    · simp [MsgMint.ValidateBasic, NewMsgMint, he]
  have hr : GetCmdMint.RunE lib fromAddress (denom :: rest) =
      CmdRet.err (Error.Wrap SdkRoot.ErrInvalidAddress
        (if fromAddress.Empty then "" else "Can't mint to yourself")) := by
    simp only [GetCmdMint.RunE, hv]
  refine ⟨hv, hr, ?_⟩
  intro msgs
  rw [hr]
  simp

/-- C20, evaluated for the from-address `alice` and for an empty from-address. -/
theorem GetCmdMint.RunE_rejects_witness :
    GetCmdMint.RunE sampleLibs alice ["🪙"] =
      CmdRet.err (Error.Wrap SdkRoot.ErrInvalidAddress "Can't mint to yourself") ∧
    GetCmdMint.RunE sampleLibs (AccAddress.mk []) ["🪙"] =
      CmdRet.err (Error.Wrap SdkRoot.ErrInvalidAddress "") :=
  ⟨(GetCmdMint.RunE_rejects sampleLibs alice "🪙" []).2.1,
   (GetCmdMint.RunE_rejects sampleLibs (AccAddress.mk []) "🪙" []).2.1⟩

/-! ## C14, C15, C16 : tally and time of the persisted records -/

theorem sdk.NewCoin_some (lib : Libs) (denom : String) (amount : Int) (c : Coin)
    (h : sdk.NewCoin lib denom amount = some c) : 0 ≤ amount := by
  unfold sdk.NewCoin at h
  split_ifs at h with hc
  simp only [Bool.and_eq_true, decide_eq_true_eq] at hc
  exact hc.2

/-- What a `MintAndSend` call does to the record of its sender: it leaves it as it was, or it
passed the rate-limit check with a non-negative amount and wrote the updated record. -/
theorem Keeper.MintAndSend_sender_record (lib : Libs) (k : Keeper W) (ctx : Ctx W)
    (sender receiver : AccAddress) (mintTime : Int) (denom : String) (before : Mining)
    (hcdc : k.cdc.MiningRoundTrip)
    (hbefore : k.getMining ctx sender = some before) :
    (k.getMining (k.MintAndSend lib ctx sender receiver mintTime denom).2 sender = some before ∧
      k.isPresent (k.MintAndSend lib ctx sender receiver mintTime denom).2 sender =
        k.isPresent ctx sender) ∨
    (0 ≤ k.amount ∧
      k.tooOften ctx sender before mintTime = false ∧
      before.Minter.Empty = false ∧ add64 before.Tally k.amount ≠ 0 ∧
      k.isPresent (k.MintAndSend lib ctx sender receiver mintTime denom).2 sender = true ∧
      k.getMining (k.MintAndSend lib ctx sender receiver mintTime denom).2 sender =
        some (Mining.mk before.Minter mintTime (add64 before.Tally k.amount))) := by
  rcases k.MintAndSend_cases lib ctx sender receiver mintTime denom with h | h
  · left
    rw [h.1]
    exact ⟨hbefore, rfl⟩
  · obtain ⟨mining, newCoin, _, hm, hrl, hc, hstore⟩ := h
    rw [hbefore] at hm
    cases hm
    rw [k.isPresent_of_store_eq _ _ sender hstore, k.getMining_of_store_eq _ _ sender hstore]
    by_cases hskip : before.Minter.Empty = true ∨ add64 before.Tally k.amount = 0
    · left
      have hsame : k.setMining ctx sender
          (Mining.mk before.Minter mintTime (add64 before.Tally k.amount)) = ctx := by
        rw [Keeper.setMining_eq]
        rcases hskip with h1 | h1
        · simp [h1]
        · simp [h1]
      rw [hsame]
      exact ⟨hbefore, rfl⟩
    · right
      have haddr : before.Minter.Empty = false := by
        cases hE : before.Minter.Empty
        · rfl
        · exact absurd (Or.inl hE) hskip
      have htally : add64 before.Tally k.amount ≠ 0 := fun h0 => hskip (Or.inr h0)
      have hset := k.getMining_setMining ctx sender
        (Mining.mk before.Minter mintTime (add64 before.Tally k.amount)) hcdc haddr htally
      exact ⟨sdk.NewCoin_some lib denom _ newCoin hc, hrl, haddr, htally, hset.1, hset.2⟩

/-- A `MintAndSend` call leaves the record of every address other than its sender. -/
theorem Keeper.MintAndSend_getMining_other (lib : Libs) (k : Keeper W) (ctx : Ctx W)
    (sender receiver a : AccAddress) (mintTime : Int) (denom : String) (ha : a ≠ sender) :
    k.isPresent (k.MintAndSend lib ctx sender receiver mintTime denom).2 a =
        k.isPresent ctx a ∧
      k.getMining (k.MintAndSend lib ctx sender receiver mintTime denom).2 a =
        k.getMining ctx a := by
  have hkey : a.Bytes ≠ sender.Bytes := fun h => ha (AccAddress.eq_of_bytes_eq _ _ h)
  have h := k.MintAndSend_store_other lib ctx sender receiver mintTime denom a.Bytes hkey
  unfold Keeper.getMining Keeper.isPresent
  rw [h.1, h.2]
  exact ⟨rfl, rfl⟩

/-- C15, as the code has it. With a codec that round-trips records: if the `int64` sum of the
sender's tally and the amount does not overflow, then for every address the tally that
`getMining` returns after a `MintAndSend` call, whatever the call returns, is at least the
tally it returned before. -/
theorem Keeper.MintAndSend_tally_monotone (lib : Libs) (k : Keeper W) (ctx : Ctx W)
    (sender receiver a : AccAddress) (mintTime : Int) (denom : String) (before : Mining)
    (hcdc : k.cdc.MiningRoundTrip)
    (hsum : ∀ m, k.getMining ctx sender = some m → IsInt64 (m.Tally + k.amount))
    (hbefore : k.getMining ctx a = some before) :
    ∃ after, k.getMining (k.MintAndSend lib ctx sender receiver mintTime denom).2 a =
        some after ∧ before.Tally ≤ after.Tally := by
  by_cases ha : a = sender
  · subst ha
    rcases k.MintAndSend_sender_record lib ctx a receiver mintTime denom before hcdc hbefore
      with h | h
    · exact ⟨before, h.1, le_refl _⟩
    · obtain ⟨hamount, _, _, _, _, hget⟩ := h
      refine ⟨_, hget, ?_⟩
      show before.Tally ≤ add64 before.Tally k.amount
      unfold add64
      rw [wrapInt64_of_isInt64 _ (hsum before hbefore)]
      omega
  · rw [(k.MintAndSend_getMining_other lib ctx sender receiver a mintTime denom ha).2]
    exact ⟨before, hbefore, le_refl _⟩

/-- C16, as the code has it. With a codec that round-trips records, a non-negative cooldown,
for a sender without record a non-negative request time, and a request time and a persisted
`LastTime` of the sender on which the time arithmetic stays within `int64`: for every address
the `LastTime` that `getMining` returns after a `MintAndSend` call, whatever the call returns,
is at least the `LastTime` it returned before. -/
theorem Keeper.MintAndSend_lastTime_monotone (lib : Libs) (k : Keeper W) (ctx : Ctx W)
    (sender receiver a : AccAddress) (mintTime : Int) (denom : String) (before : Mining)
    (hcdc : k.cdc.MiningRoundTrip) (hlimit : 0 ≤ k.Limit)
    (hstart : k.isPresent ctx sender = true ∨ 0 ≤ mintTime)
    (hlast : ∀ record, k.isPresent ctx sender = true → k.getMining ctx sender = some record →
      k.TimeOk record.LastTime)
    (hmint : IsInt64 (mintTime + time.unixToInternal))
    (hbefore : k.getMining ctx a = some before) :
    ∃ after, k.getMining (k.MintAndSend lib ctx sender receiver mintTime denom).2 a =
        some after ∧ before.LastTime ≤ after.LastTime := by
  by_cases ha : a = sender
  · subst ha
    rcases k.MintAndSend_sender_record lib ctx a receiver mintTime denom before hcdc hbefore
      with h | h
    · exact ⟨before, h.1, le_refl _⟩
    · obtain ⟨_, hrl, _, _, _, hget⟩ := h
      refine ⟨_, hget, ?_⟩
      show before.LastTime ≤ mintTime
      cases hp : k.isPresent ctx a
      · have hfresh := k.getMining_absent ctx a hp
        rw [hbefore] at hfresh
        cases hfresh
        rcases hstart with h1 | h1
        · rw [hp] at h1
          exact absurd h1 (by simp)
        · exact h1
      · have hge := k.not_tooOften_ge ctx a before mintTime hp (hlast before hp hbefore)
          hmint hrl
        omega
  · rw [(k.MintAndSend_getMining_other lib ctx sender receiver a mintTime denom ha).2]
    exact ⟨before, hbefore, le_refl _⟩

/-- C15, evaluated: the second mint of `alice`, 5 units at time 110 after one at time 100. -/
theorem Keeper.MintAndSend_tally_monotone_witness :
    (sampleKeeper 5 10000000000 false false).cdc.MiningRoundTrip ∧
    (sampleKeeper 5 10000000000 false false).getMining
      ((sampleKeeper 5 10000000000 false false).call sampleLibs (Ctx.init 0)
        (MintCall.mk alice bob 100 "🪙")).2 alice = some (Mining.mk alice 100 5) ∧
    IsInt64 ((Mining.mk alice 100 5).Tally + (sampleKeeper 5 10000000000 false false).amount) ∧
    ∃ after, (sampleKeeper 5 10000000000 false false).getMining
        ((sampleKeeper 5 10000000000 false false).MintAndSend sampleLibs
          ((sampleKeeper 5 10000000000 false false).call sampleLibs (Ctx.init 0)
            (MintCall.mk alice bob 100 "🪙")).2 alice bob 110 "🪙").2 alice = some after ∧
      (Mining.mk alice 100 5).Tally ≤ after.Tally :=
  ⟨sampleCodec_miningRoundTrip, by decide, by decide,
   Keeper.MintAndSend_tally_monotone sampleLibs (sampleKeeper 5 10000000000 false false)
    ((sampleKeeper 5 10000000000 false false).call sampleLibs (Ctx.init 0)
      (MintCall.mk alice bob 100 "🪙")).2 alice bob alice 110 "🪙" (Mining.mk alice 100 5)
    sampleCodec_miningRoundTrip
    (fun m hm => by
      have h : (sampleKeeper 5 10000000000 false false).getMining
          ((sampleKeeper 5 10000000000 false false).call sampleLibs (Ctx.init 0)
            (MintCall.mk alice bob 100 "🪙")).2 alice = some (Mining.mk alice 100 5) := by
        decide
      rw [h] at hm
      cases hm
      decide)
    (by decide)⟩

/-- C15 fails as stated when the `int64` addition overflows: with the amount 2^63 - 1 and no
cooldown, the tally of `alice` is 9223372036854775807 after her first mint and -2 after her
second. -/
theorem Keeper.MintAndSend_tally_monotone_counterexample :
    (sampleKeeper 9223372036854775807 0 false false).getMining
      ((sampleKeeper 9223372036854775807 0 false false).call sampleLibs (Ctx.init 0)
        (MintCall.mk alice bob 1 "🪙")).2 alice =
      some (Mining.mk alice 1 9223372036854775807) ∧
    ((sampleKeeper 9223372036854775807 0 false false).MintAndSend sampleLibs
      ((sampleKeeper 9223372036854775807 0 false false).call sampleLibs (Ctx.init 0)
        (MintCall.mk alice bob 1 "🪙")).2 alice bob 2 "🪙").1 = Ret.nil ∧
    (sampleKeeper 9223372036854775807 0 false false).getMining
      ((sampleKeeper 9223372036854775807 0 false false).MintAndSend sampleLibs
        ((sampleKeeper 9223372036854775807 0 false false).call sampleLibs (Ctx.init 0)
          (MintCall.mk alice bob 1 "🪙")).2 alice bob 2 "🪙").2 alice =
      some (Mining.mk alice 2 (-2)) ∧
    ¬ ((Mining.mk alice 1 9223372036854775807).Tally ≤ (Mining.mk alice 2 (-2)).Tally) := by
  decide

/-- C16, evaluated: the second mint of `alice`, at time 110 after one at time 100, with a
cooldown of 10 s. -/
theorem Keeper.MintAndSend_lastTime_monotone_witness :
    (sampleKeeper 5 10000000000 false false).cdc.MiningRoundTrip ∧
    0 ≤ (sampleKeeper 5 10000000000 false false).Limit ∧
    (sampleKeeper 5 10000000000 false false).TimeOk (Mining.mk alice 100 5).LastTime ∧
    IsInt64 (110 + time.unixToInternal) ∧
    (sampleKeeper 5 10000000000 false false).getMining
      ((sampleKeeper 5 10000000000 false false).call sampleLibs (Ctx.init 0)
        (MintCall.mk alice bob 100 "🪙")).2 alice = some (Mining.mk alice 100 5) ∧
    ∃ after, (sampleKeeper 5 10000000000 false false).getMining
        ((sampleKeeper 5 10000000000 false false).MintAndSend sampleLibs
          ((sampleKeeper 5 10000000000 false false).call sampleLibs (Ctx.init 0)
            (MintCall.mk alice bob 100 "🪙")).2 alice bob 110 "🪙").2 alice = some after ∧
      (Mining.mk alice 100 5).LastTime ≤ after.LastTime :=
  ⟨sampleCodec_miningRoundTrip, by decide, by decide, by decide, by decide,
   Keeper.MintAndSend_lastTime_monotone sampleLibs (sampleKeeper 5 10000000000 false false)
    ((sampleKeeper 5 10000000000 false false).call sampleLibs (Ctx.init 0)
      (MintCall.mk alice bob 100 "🪙")).2 alice bob alice 110 "🪙" (Mining.mk alice 100 5)
    sampleCodec_miningRoundTrip (by decide) (Or.inl (by decide))
    (fun record _ hrec => by
      have h : (sampleKeeper 5 10000000000 false false).getMining
          ((sampleKeeper 5 10000000000 false false).call sampleLibs (Ctx.init 0)
            (MintCall.mk alice bob 100 "🪙")).2 alice = some (Mining.mk alice 100 5) := by
        decide
      rw [h] at hrec
      cases hrec
      decide)
    (by decide) (by decide)⟩

/-- C16 fails as stated for a negative cooldown: with `Limit` = -10 s, `alice` mints at time
100 and then at time 95, which is not earlier than 100 - 10, and her `LastTime` goes from 100
back to 95. -/
theorem Keeper.MintAndSend_lastTime_monotone_counterexample :
    (sampleKeeper 5 (-10000000000) false false).getMining
      ((sampleKeeper 5 (-10000000000) false false).call sampleLibs (Ctx.init 0)
        (MintCall.mk alice bob 100 "🪙")).2 alice = some (Mining.mk alice 100 5) ∧
    ((sampleKeeper 5 (-10000000000) false false).MintAndSend sampleLibs
      ((sampleKeeper 5 (-10000000000) false false).call sampleLibs (Ctx.init 0)
        (MintCall.mk alice bob 100 "🪙")).2 alice bob 95 "🪙").1 = Ret.nil ∧
    (sampleKeeper 5 (-10000000000) false false).getMining
      ((sampleKeeper 5 (-10000000000) false false).MintAndSend sampleLibs
        ((sampleKeeper 5 (-10000000000) false false).call sampleLibs (Ctx.init 0)
          (MintCall.mk alice bob 100 "🪙")).2 alice bob 95 "🪙").2 alice =
      some (Mining.mk alice 95 10) ∧
    ¬ ((Mining.mk alice 100 5).LastTime ≤ (Mining.mk alice 95 10).LastTime) := by
  decide

/-! ### C14 : the invariant of the persisted records -/

theorem Keeper.RecordsOk_mono (k : Keeper W) (ctx : Ctx W) (b b1 : Int) (hb : b ≤ b1)
    (h : k.RecordsOk b ctx) : k.RecordsOk b1 ctx := by
  intro a ha hp
  obtain ⟨m, hm, h1, h2, h3, h4⟩ := h a ha hp
  exact ⟨m, hm, h1, h2, h3, le_trans h4 hb⟩

theorem Keeper.RecordsOk_init (k : Keeper W) (w : W) (b : Int) :
    k.RecordsOk b (Ctx.init w) := by
  intro a _ hp
  simp [Keeper.isPresent, Ctx.init, KVStore.empty, KVStore.Has] at hp

theorem Keeper.RecordsOk_publish (k : Keeper W) (ctx : Ctx W) (armor : String) (b : Int)
    (h : k.RecordsOk b ctx) : k.RecordsOk b (k.SetFaucetKey ctx armor).2 := by
  cases hm : k.cdc.MustMarshalFaucetKey (NewFaucetKey armor) with
  | none =>
    rw [k.SetFaucetKey_none ctx armor hm]
    exact h
  | some bz =>
    rw [k.SetFaucetKey_some ctx armor bz hm]
    intro a ha hp
    have hp1 : k.isPresent (Ctx.mk (ctx.store.put FaucetStoreKey bz) ctx.world ctx.calls) a =
        k.isPresent ctx a := by
      simp [Keeper.isPresent, KVStore.has_put_other _ _ _ _ ha]
    have hg1 : k.getMining (Ctx.mk (ctx.store.put FaucetStoreKey bz) ctx.world ctx.calls) a =
        k.getMining ctx a := by
      simp [Keeper.getMining, Keeper.isPresent, KVStore.has_put_other _ _ _ _ ha,
        KVStore.get_put_other _ _ _ _ ha]
    rw [hg1]
    rw [hp1] at hp
    exact h a ha hp

/-- A `MintAndSend` call keeps the invariant, the bound growing by the amount, as long as the
new bound is within `int64`. -/
theorem Keeper.RecordsOk_mint (lib : Libs) (k : Keeper W) (ctx : Ctx W) (c : MintCall)
    (b b1 : Int) (hcdc : k.cdc.MiningRoundTrip) (hb0 : 0 ≤ b) (hb : b ≤ b1)
    (hroom : 0 ≤ k.amount → b + k.amount ≤ b1) (hb1 : b1 < 9223372036854775808)
    (h : k.RecordsOk b ctx) : k.RecordsOk b1 (k.call lib ctx c).2 := by
  intro a ha hp
  unfold Keeper.call at hp ⊢
  by_cases has : a = c.sender
  · subst has
    have hold : ∃ before, k.getMining ctx c.sender = some before ∧ before.Minter = c.sender ∧
        0 ≤ before.Tally ∧ before.Tally ≤ b ∧
        (k.isPresent ctx c.sender = true → c.sender.Empty = false ∧ 0 < before.Tally) := by
      cases hpre : k.isPresent ctx c.sender
      · exact ⟨NewMining c.sender 0, k.getMining_absent ctx c.sender hpre, rfl, le_refl _, hb0,
          fun hc => absurd hc (by simp)⟩
      · obtain ⟨m, hm, h1, h2, h3, h4⟩ := h c.sender ha hpre
        exact ⟨m, hm, h1, le_of_lt h3, h4, fun _ => ⟨h2, h3⟩⟩
    obtain ⟨before, hbefore, hminter, ht0, htb, hpres⟩ := hold
    rcases k.MintAndSend_sender_record lib ctx c.sender c.receiver c.mintTime c.denom before hcdc
      hbefore with hcase | hcase
    · rw [hcase.2] at hp
      rw [hcase.1]
      obtain ⟨hne, hpos⟩ := hpres hp
      exact ⟨before, rfl, hminter, hne, hpos, le_trans htb hb⟩
    · obtain ⟨hamount, _, haddr, htally, _, hget⟩ := hcase
      rw [hget]
      have hroom1 := hroom hamount
      have hint : IsInt64 (before.Tally + k.amount) := by
        unfold IsInt64
        omega
      have hsum : add64 before.Tally k.amount = before.Tally + k.amount := by
        unfold add64
        exact wrapInt64_of_isInt64 _ hint
      rw [hsum] at htally ⊢
      rw [hminter] at haddr
      refine ⟨_, rfl, hminter, haddr, ?_, ?_⟩
      · show 0 < before.Tally + k.amount
        omega
      · show before.Tally + k.amount ≤ b1
        omega
  · have hother := k.MintAndSend_getMining_other lib ctx c.sender c.receiver a c.mintTime
      c.denom has
    rw [hother.1] at hp
    rw [hother.2]
    exact k.RecordsOk_mono ctx b b1 hb h a ha hp

theorem Keeper.RecordsOk_step (lib : Libs) (k : Keeper W) (ctx : Ctx W) (op : Op)
    (b A : Int) (hcdc : k.cdc.MiningRoundTrip) (hb0 : 0 ≤ b) (hA0 : 0 ≤ A)
    (hA : 0 ≤ k.amount → k.amount ≤ A) (hb1 : b + A < 9223372036854775808)
    (h : k.RecordsOk b ctx) : k.RecordsOk (b + A) (k.step lib ctx op) := by
  cases op with
  | mint c =>
    exact k.RecordsOk_mint lib ctx c b (b + A) hcdc hb0 (by omega)
      (fun h0 => by have := hA h0; omega) hb1 h
  | publish armor =>
    exact k.RecordsOk_mono _ b (b + A) (by omega) (k.RecordsOk_publish ctx armor b h)

theorem Keeper.RecordsOk_run (lib : Libs) (k : Keeper W) (A : Int)
    (hcdc : k.cdc.MiningRoundTrip) (hA0 : 0 ≤ A) (hA : 0 ≤ k.amount → k.amount ≤ A)
    (ops : List Op) :
    ∀ (ctx : Ctx W) (b : Int), 0 ≤ b → b + (ops.length : Int) * A < 9223372036854775808 →
      k.RecordsOk b ctx → k.RecordsOk (b + (ops.length : Int) * A) (k.run lib ctx ops) := by
  induction ops with
  | nil =>
    intro ctx b _ _ h
    simpa [Keeper.run] using h
  | cons op ops ih =>
    intro ctx b hb0 hroom h
    have hlen : (((op :: ops).length : Nat) : Int) * A = A + (ops.length : Int) * A := by
      rw [List.length_cons]
      push_cast
      ring
    have hnn : 0 ≤ (ops.length : Int) * A := mul_nonneg (Int.ofNat_nonneg _) hA0
    rw [hlen] at hroom ⊢
    have hstep := k.RecordsOk_step lib ctx op b A hcdc hb0 hA0 hA (by omega) h
    have hrest := ih (k.step lib ctx op) (b + A) (by omega) (by omega) hstep
    have hsame : b + (A + (ops.length : Int) * A) = b + A + (ops.length : Int) * A := by ring
    rw [hsame]
    exact hrest

/-- C14, as the code has it. Let the codec round-trip records and let the number of
operations times the amount stay below 2^63, so that no tally addition overflows. Then in
every store state reached from the empty store by a sequence of `MintAndSend` and
`SetFaucetKey` operations, every record persisted under an address other than the reserved
key `FaucetStoreKey` has a tally greater than 0 and a non-empty `Minter`, which is the address
it is stored under. -/
theorem Keeper.persisted_records_positive (lib : Libs) (k : Keeper W) (w : W) (ops : List Op)
    (hcdc : k.cdc.MiningRoundTrip)
    (hbound : (ops.length : Int) * k.amount < 9223372036854775808) :
    ∀ a : AccAddress, a.Bytes ≠ FaucetStoreKey →
      k.isPresent (k.run lib (Ctx.init w) ops) a = true →
      ∃ m, k.getMining (k.run lib (Ctx.init w) ops) a = some m ∧ 0 < m.Tally ∧
        m.Minter.Empty = false ∧ m.Minter = a := by
  intro a ha hp
  by_cases hamount : 0 ≤ k.amount
  · have hrun := k.RecordsOk_run lib k.amount hcdc hamount (fun _ => le_refl _) ops
      (Ctx.init w) 0 (le_refl _) (by omega) (k.RecordsOk_init w 0)
    obtain ⟨m, hm, h1, h2, h3, _⟩ := hrun a ha hp
    exact ⟨m, hm, h3, by rw [h1]; exact h2, h1⟩
  · have hrun := k.RecordsOk_run lib 0 hcdc (le_refl _) (fun h0 => absurd h0 hamount) ops
      (Ctx.init w) 0 (le_refl _) (by simp) (k.RecordsOk_init w 0)
    obtain ⟨m, hm, h1, h2, h3, _⟩ := hrun a ha hp
    exact ⟨m, hm, h3, by rw [h1]; exact h2, h1⟩

/-- C14, evaluated: two mints of `alice`, a publish in between and a mint of `bob`. -/
theorem Keeper.persisted_records_positive_witness :
    (sampleKeeper 5 10000000000 false false).cdc.MiningRoundTrip ∧
    (([Op.mint (MintCall.mk alice bob 100 "🪙"), Op.publish "ARMOR1",
        Op.mint (MintCall.mk alice bob 110 "🪙"),
        Op.mint (MintCall.mk bob alice 111 "🪙")].length : Int) *
      (sampleKeeper 5 10000000000 false false).amount < 9223372036854775808) ∧
    alice.Bytes ≠ FaucetStoreKey ∧
    (sampleKeeper 5 10000000000 false false).isPresent
      ((sampleKeeper 5 10000000000 false false).run sampleLibs (Ctx.init 0)
        [Op.mint (MintCall.mk alice bob 100 "🪙"), Op.publish "ARMOR1",
          Op.mint (MintCall.mk alice bob 110 "🪙"),
          Op.mint (MintCall.mk bob alice 111 "🪙")]) alice = true ∧
    ∃ m, (sampleKeeper 5 10000000000 false false).getMining
        ((sampleKeeper 5 10000000000 false false).run sampleLibs (Ctx.init 0)
          [Op.mint (MintCall.mk alice bob 100 "🪙"), Op.publish "ARMOR1",
            Op.mint (MintCall.mk alice bob 110 "🪙"),
            Op.mint (MintCall.mk bob alice 111 "🪙")]) alice = some m ∧
      0 < m.Tally ∧ m.Minter.Empty = false ∧ m.Minter = alice :=
  ⟨sampleCodec_miningRoundTrip, by decide, by decide, by decide,
   Keeper.persisted_records_positive sampleLibs (sampleKeeper 5 10000000000 false false) 0
    [Op.mint (MintCall.mk alice bob 100 "🪙"), Op.publish "ARMOR1",
      Op.mint (MintCall.mk alice bob 110 "🪙"), Op.mint (MintCall.mk bob alice 111 "🪙")]
    sampleCodec_miningRoundTrip (by decide) alice (by decide) (by decide)⟩

/-- C14 fails as stated when the tally overflows: with the amount 2^62 and no cooldown, after
two mints of `alice` from the empty store her persisted record has the tally -2^63. -/
theorem Keeper.persisted_records_positive_counterexample :
    (sampleKeeper 4611686018427387904 0 false false).isPresent
      ((sampleKeeper 4611686018427387904 0 false false).run sampleLibs (Ctx.init 0)
        [Op.mint (MintCall.mk alice bob 1 "🪙"), Op.mint (MintCall.mk alice bob 2 "🪙")])
      alice = true ∧
    (sampleKeeper 4611686018427387904 0 false false).getMining
      ((sampleKeeper 4611686018427387904 0 false false).run sampleLibs (Ctx.init 0)
        [Op.mint (MintCall.mk alice bob 1 "🪙"), Op.mint (MintCall.mk alice bob 2 "🪙")])
      alice = some (Mining.mk alice 2 (-9223372036854775808)) ∧
    ¬ (0 < (Mining.mk alice 2 (-9223372036854775808)).Tally) := by
  decide

end Faucet
